import Mathlib

/-
Verification of the VE3 image-editor core against its specification.

The JavaScript source is shallowly embedded: classes become structures,
mutating methods become pure state-transforming functions, typed arrays
(Uint8Array / ImageData.data) become lists of naturals, JS numbers used as
integer coordinates become integers, and while-loops become recursive
functions.  Floating-point code (the Gaussian feather blur and canvas
blend compositing) is abstracted by universally quantified parameters,
since no settled claim depends on its numeric output.
-/

set_option maxHeartbeats 1000000

/-! ## History (undo/redo) system, from HistoryManager in the source -/

/-- A history state as in class HistoryState: label, icon tag and the deep
snapshot of the layer stack.  The random id and wall-clock timestamp are
omitted (they are nondeterministic environment reads and no claim touches
them). -/
structure HistoryState (α : Type) where
  name : String
  icon : String
  layerData : α
deriving DecidableEq, Repr

/-- The HistoryManager fields: the list of snapshots, the cursor
(currentIndex, an integer starting at -1), the bound maxStates and the
reentrancy flag isUndoRedo. -/
structure HistoryManager (α : Type) where
  states : List (HistoryState α)
  currentIndex : ℤ
  maxStates : ℕ
  isUndoRedo : Bool
deriving DecidableEq, Repr

/-- Fresh manager, as the HistoryManager constructor. -/
def HistoryManager.init (α : Type) (maxStates : ℕ) : HistoryManager α :=
  { states := [], currentIndex := -1, maxStates := maxStates, isUndoRedo := false }

/-- The eviction loop of pushState:
while (states.length > maxStates) { states.shift(); currentIndex--; }. -/
def evictLoop {α : Type} : List (HistoryState α) → ℤ → ℕ → List (HistoryState α) × ℤ
  | [], idx, _ => ([], idx)
  | s :: rest, idx, maxStates =>
    if (s :: rest).length > maxStates then evictLoop rest (idx - 1) maxStates
    else (s :: rest, idx)

/-- HistoryManager.pushState: bail out while restoring, truncate the redo
branch when the cursor is not at the tail, append the new snapshot, move the
cursor to the tail, then evict from the front while over maxStates.
Snapshot creation (createSnapshot) is a deep copy, which is the identity in
this value-semantics embedding. -/
def HistoryManager.pushState {α : Type} (h : HistoryManager α)
    (name icon : String) (snap : α) : HistoryManager α :=
  if h.isUndoRedo then h else
  let states1 :=
    if h.currentIndex < (h.states.length : ℤ) - 1 then
      h.states.take (h.currentIndex + 1).toNat
    else h.states
  let states2 := states1 ++ [⟨name, icon, snap⟩]
  let idx2 : ℤ := (states2.length : ℤ) - 1
  let p := evictLoop states2 idx2 h.maxStates
  { h with states := p.1, currentIndex := p.2 }

/-- HistoryManager.canUndo. -/
def HistoryManager.canUndo {α : Type} (h : HistoryManager α) : Bool :=
  h.currentIndex > 0

/-- HistoryManager.canRedo. -/
def HistoryManager.canRedo {α : Type} (h : HistoryManager α) : Bool :=
  h.currentIndex < (h.states.length : ℤ) - 1

/-- HistoryManager.undo: move the cursor back one step and return the
snapshot that is restored into the layer manager (none at the boundary). -/
def HistoryManager.undo {α : Type} (h : HistoryManager α) :
    HistoryManager α × Option α :=
  if ¬ h.canUndo then (h, none) else
  let h' := { h with currentIndex := h.currentIndex - 1 }
  (h', (h'.states[h'.currentIndex.toNat]?).map HistoryState.layerData)

/-- HistoryManager.redo: move the cursor forward one step and return the
snapshot that is restored (none at the boundary). -/
def HistoryManager.redo {α : Type} (h : HistoryManager α) :
    HistoryManager α × Option α :=
  if ¬ h.canRedo then (h, none) else
  let h' := { h with currentIndex := h.currentIndex + 1 }
  (h', (h'.states[h'.currentIndex.toNat]?).map HistoryState.layerData)

/-! Helper lemmas about the eviction loop. -/

lemma evictLoop_eq {α : Type} :
    ∀ (states : List (HistoryState α)) (idx : ℤ) (maxStates : ℕ),
      evictLoop states idx maxStates =
        (states.drop (states.length - maxStates),
         idx - ((states.length - maxStates : ℕ) : ℤ)) := by
  intro states
  induction states with
  | nil => intro idx maxStates; simp [evictLoop]
  | cons s rest ih =>
    intro idx maxStates
    rw [evictLoop]
    by_cases hlen : (s :: rest).length > maxStates
    · rw [if_pos hlen, ih]
      have h1 : (s :: rest).length - maxStates = (rest.length - maxStates) + 1 := by
        simp only [List.length_cons] at hlen ⊢; omega
      rw [h1]
      simp only [Prod.mk.injEq, List.drop_succ_cons]
      refine ⟨by trivial, ?_⟩
      push_cast
      omega
    · rw [if_neg hlen]
      have h0 : (s :: rest).length - maxStates = 0 := by omega
      rw [h0]
      simp

lemma pushState_states {α : Type} (h : HistoryManager α)
    (name icon : String) (snap : α) (hflag : h.isUndoRedo = false) :
    (h.pushState name icon snap).states =
      ((if h.currentIndex < (h.states.length : ℤ) - 1 then
          h.states.take (h.currentIndex + 1).toNat
        else h.states) ++ [HistoryState.mk name icon snap]).drop
        (((if h.currentIndex < (h.states.length : ℤ) - 1 then
          h.states.take (h.currentIndex + 1).toNat
        else h.states) ++ [HistoryState.mk name icon snap]).length - h.maxStates) := by
  unfold HistoryManager.pushState
  rw [hflag]
  simp only [Bool.false_eq_true, if_false, evictLoop_eq]

lemma pushState_currentIndex {α : Type} (h : HistoryManager α)
    (name icon : String) (snap : α) (hflag : h.isUndoRedo = false) :
    (h.pushState name icon snap).currentIndex =
      ((h.pushState name icon snap).states.length : ℤ) - 1 := by
  unfold HistoryManager.pushState
  rw [hflag]
  simp only [Bool.false_eq_true, if_false, evictLoop_eq, List.length_drop]
  omega

/-- A compact abbreviation for the repeated push used in the concrete
history scenarios. -/
def pushN (h : HistoryManager ℕ) (k : ℕ) : HistoryManager ℕ :=
  h.pushState "op" "icon" k

/-- C1: pushing with the cursor not at the tail truncates the states after
the cursor, appends the new snapshot, moves the cursor to the new tail and
evicts from the front when over maxStates; the cursor invariant
-1 <= cursor < states.length holds after the push; redo is impossible right
after a push; with maxStates = 3, five pushes retain exactly the three most
recent snapshots; and after two undos a push makes the old redo state
unreachable via redo. -/
theorem C1_history_push_semantics (α : Type) (h : HistoryManager α)
    (name icon : String) (snap : α)
    (hflag : h.isUndoRedo = false)
    (htail : h.currentIndex < (h.states.length : ℤ) - 1) :
    ((h.pushState name icon snap).states =
      (h.states.take (h.currentIndex + 1).toNat ++ [HistoryState.mk name icon snap]).drop
        ((h.states.take (h.currentIndex + 1).toNat ++ [HistoryState.mk name icon snap]).length
          - h.maxStates))
    ∧ (h.pushState name icon snap).currentIndex =
        ((h.pushState name icon snap).states.length : ℤ) - 1
    ∧ (-1 ≤ (h.pushState name icon snap).currentIndex
        ∧ (h.pushState name icon snap).currentIndex <
            ((h.pushState name icon snap).states.length : ℤ))
    ∧ (h.pushState name icon snap).canRedo = false
    ∧ ((pushN (pushN (pushN (pushN (pushN (HistoryManager.init ℕ 3) 1) 2) 3) 4) 5).states
        = [⟨"op", "icon", 3⟩, ⟨"op", "icon", 4⟩, ⟨"op", "icon", 5⟩]
        ∧ (pushN (pushN (pushN (pushN (pushN (HistoryManager.init ℕ 3) 1) 2) 3) 4) 5).currentIndex = 2)
    ∧ (((pushN (pushN (pushN (HistoryManager.init ℕ 50) 1) 2) 3).undo.1.undo.1).canRedo = true
        ∧ (pushN ((pushN (pushN (pushN (HistoryManager.init ℕ 50) 1) 2) 3).undo.1.undo.1) 9).canRedo = false
        ∧ (pushN ((pushN (pushN (pushN (HistoryManager.init ℕ 50) 1) 2) 3).undo.1.undo.1) 9).redo
            = ((pushN ((pushN (pushN (pushN (HistoryManager.init ℕ 50) 1) 2) 3).undo.1.undo.1) 9), none)) := by
  refine ⟨?_, pushState_currentIndex h name icon snap hflag, ?_, ?_, by decide, by decide⟩
  · rw [pushState_states h name icon snap hflag, if_pos htail]
  · rw [pushState_currentIndex h name icon snap hflag]
    constructor
    · have hlen : 1 ≤ (h.pushState name icon snap).states.length ∨
          0 ≤ ((h.pushState name icon snap).states.length : ℤ) := Or.inr (by positivity)
      omega
    · omega
  · unfold HistoryManager.canRedo
    rw [pushState_currentIndex h name icon snap hflag]
    simp

/-- Witness for C1 at a concrete history whose cursor is one before the
tail. -/
theorem C1_history_push_semantics_witness :
    ((HistoryManager.mk [⟨"a", "b", 0⟩, ⟨"c", "d", 1⟩] 0 50 false : HistoryManager ℕ).isUndoRedo
        = false)
    ∧ ((HistoryManager.mk [⟨"a", "b", 0⟩, ⟨"c", "d", 1⟩] 0 50 false :
          HistoryManager ℕ).pushState "e" "f" 7).states =
        [⟨"a", "b", 0⟩, ⟨"e", "f", 7⟩] := by
  have h := C1_history_push_semantics ℕ
    (HistoryManager.mk [⟨"a", "b", 0⟩, ⟨"c", "d", 1⟩] 0 50 false)
    "e" "f" 7 (by decide) (by decide)
  exact ⟨rfl, by rw [h.1]; decide⟩

/-! ## Selection system, from class Selection and Utils in the source -/

/-- A bounds rectangle as stored in Selection.bounds.  Coordinates are kept
as integers; the source stores plain JS numbers that are integral for every
operation modelled here. -/
structure Rect where
  x : ℤ
  y : ℤ
  w : ℤ
  h : ℤ
deriving DecidableEq, Repr

/-- The Selection fields.  The Uint8Array mask becomes a list of naturals
(length width*height, entries 0..255). -/
structure Selection where
  width : ℕ
  height : ℕ
  mask : Option (List ℕ)
  bounds : Option Rect
  feather : ℕ
  active : Bool
  type : Option String
deriving DecidableEq, Repr

/-- The Selection constructor. -/
def Selection.init (w h : ℕ) : Selection :=
  { width := w, height := h, mask := none, bounds := none, feather := 0,
    active := false, type := none }

/-- Selection.hasSelection. -/
def Selection.hasSelection (s : Selection) : Bool :=
  s.active && s.mask.isSome

/-- Selection.containsPoint: no mask means everything is selected;
out-of-canvas points are outside; otherwise a mask entry above 0 counts as
inside.  Math.floor is the identity on the integer coordinates used here. -/
def Selection.containsPoint (s : Selection) (x y : ℤ) : Bool :=
  match s.mask with
  | none => true
  | some m =>
    if x < 0 || x ≥ (s.width : ℤ) || y < 0 || y ≥ (s.height : ℤ) then false
    else decide (m.getD (y.toNat * s.width + x.toNat) 0 > 0)

/-- Selection.getMaskValue. -/
def Selection.getMaskValue (s : Selection) (x y : ℤ) : ℕ :=
  match s.mask with
  | none => 255
  | some m =>
    if x < 0 || x ≥ (s.width : ℤ) || y < 0 || y ≥ (s.height : ℤ) then 0
    else m.getD (y.toNat * s.width + x.toNat) 0

/-- Selection.deselect. -/
def Selection.deselect (s : Selection) : Selection :=
  { s with mask := none, bounds := none, type := none, active := false }

/-- Selection.selectAll. -/
def Selection.selectAll (s : Selection) : Selection :=
  { s with mask := some (List.replicate (s.width * s.height) 255),
           bounds := some ⟨0, 0, (s.width : ℤ), (s.height : ℤ)⟩,
           type := some "all", active := true }

/-- Selection.inverse: flip every mask entry to 255 - value and reset the
bounds to the full canvas rectangle; without a mask the method returns
immediately. -/
def Selection.inverse (s : Selection) : Selection :=
  match s.mask with
  | none => s
  | some m =>
    { s with mask := some (m.map (fun v => 255 - v)),
             bounds := some ⟨0, 0, (s.width : ℤ), (s.height : ℤ)⟩ }

/-- Selection.setFeather. -/
def Selection.setFeather (s : Selection) (amount : ℕ) : Selection :=
  { s with feather := amount }

section FeatherAbstract

/- Selection.applyFeather runs a two-pass Gaussian blur of the mask with a
floating-point kernel (Utils.createGaussianKernel uses Math.exp).  The
numeric blur output is abstracted by the parameter featherMask, applied to
width, height, feather radius and the mask; the method itself touches only
the mask field, and only when a mask exists and feather > 0, which is the
structure the theorems below rely on. -/
variable (featherMask : ℕ → ℕ → ℕ → List ℕ → List ℕ)

/-- Selection.applyFeather, with the float blur abstracted (see above). -/
def Selection.applyFeather (s : Selection) : Selection :=
  match s.mask with
  | none => s
  | some m =>
    if s.feather = 0 then s
    else { s with mask := some (featherMask s.width s.height s.feather m) }

/-- The row-major list of pixel coordinates (x, y) visited by the nested
for-y/for-x loops over a region, as used by Selection.createRect. -/
def rectCoords (x1 y1 x2 y2 : ℕ) : List (ℕ × ℕ) :=
  (List.range' y1 (y2 - y1)).bind (fun py =>
    (List.range' x1 (x2 - x1)).map (fun px => (px, py)))

/-- Selection.createRect: allocate a fresh zero mask, clamp the rectangle
to the canvas, write 255 on every pixel of the clamped rectangle, set
bounds to the clamped rectangle, activate, and apply feather if set.
Math.floor/Math.ceil are identities on the integer inputs modelled. -/
def Selection.createRect (s : Selection) (x y w h : ℤ) : Selection :=
  let x1 := max 0 (min x (x + w))
  let y1 := max 0 (min y (y + h))
  let x2 := min (s.width : ℤ) (max x (x + w))
  let y2 := min (s.height : ℤ) (max y (y + h))
  let mask0 := List.replicate (s.width * s.height) 0
  let mask := (rectCoords x1.toNat y1.toNat x2.toNat y2.toNat).foldl
    (fun mk c => mk.set (c.2 * s.width + c.1) 255) mask0
  let s' : Selection := { s with
    mask := some mask, type := some "rect",
    bounds := some ⟨x1, y1, x2 - x1, y2 - y1⟩, active := true }
  if s'.feather > 0 then s'.applyFeather featherMask else s'

/-- Utils.pointInPolygon, the even-odd ray-casting test.  Rational
arithmetic replaces JS floats; the division is only reached when
yi > y and yj > y differ, which forces yj - yi to be non-zero, so the
two agree on the inputs the rasterizer produces. -/
def pointInPolygon (x y : ℚ) (polygon : List (ℚ × ℚ)) : Bool :=
  let pairs := polygon.zip (polygon.rotate (polygon.length - 1))
  pairs.foldl (fun inside pq =>
    let xi := pq.1.1
    let yi := pq.1.2
    let xj := pq.2.1
    let yj := pq.2.2
    if (decide (yi > y) ≠ decide (yj > y)) ∧ x < (xj - xi) * (y - yi) / (yj - yi) + xi
    then !inside else inside) false

/-- Selection.createLasso: fewer than 3 points returns with the state
untouched; otherwise rasterize the polygon into a fresh mask over its
clamped bounding box using the even-odd test, set bounds, activate, and
apply feather if set.  The Infinity-seeded min/max scan over the points is
folded starting from the first point. -/
def Selection.createLasso (s : Selection) (points : List (ℚ × ℚ)) : Selection :=
  if points.length < 3 then s else
  match points with
  | [] => s
  | p0 :: rest =>
    let minX := rest.foldl (fun a p => min a p.1) p0.1
    let minY := rest.foldl (fun a p => min a p.2) p0.2
    let maxX := rest.foldl (fun a p => max a p.1) p0.1
    let maxY := rest.foldl (fun a p => max a p.2) p0.2
    let x1 := max 0 ⌊minX⌋
    let y1 := max 0 ⌊minY⌋
    let x2 := min (s.width : ℤ) ⌈maxX⌉
    let y2 := min (s.height : ℤ) ⌈maxY⌉
    let mask0 := List.replicate (s.width * s.height) 0
    let mask := (rectCoords x1.toNat y1.toNat x2.toNat y2.toNat).foldl
      (fun mk c =>
        if pointInPolygon (c.1 : ℚ) (c.2 : ℚ) points
        then mk.set (c.2 * s.width + c.1) 255 else mk) mask0
    let s' : Selection := { s with
      mask := some mask, type := some "lasso",
      bounds := some ⟨x1, y1, x2 - x1, y2 - y1⟩, active := true }
    if s'.feather > 0 then s'.applyFeather featherMask else s'

end FeatherAbstract

/-- Accumulator of the min/max scans over non-zero mask entries
(Selection.updateBounds and Selection.createMagicWand). -/
structure BoundsScan where
  minX : ℕ
  minY : ℕ
  maxX : ℕ
  maxY : ℕ
deriving DecidableEq, Repr

/-- Row-major coordinates of the whole canvas, as visited by the
for-y/for-x scan loops. -/
def allCoords (w h : ℕ) : List (ℕ × ℕ) :=
  (List.range h).bind (fun py => (List.range w).map (fun px => (px, py)))

/-- One scan step: fold a coordinate into the running min/max bounds if its
mask entry is non-zero. -/
def scanStep (w : ℕ) (m : List ℕ) (acc : BoundsScan × Bool) (c : ℕ × ℕ) :
    BoundsScan × Bool :=
  if m.getD (c.2 * w + c.1) 0 > 0 then
    (⟨min acc.1.minX c.1, min acc.1.minY c.2, max acc.1.maxX c.1, max acc.1.maxY c.2⟩, true)
  else acc

/-- Selection.updateBounds: scan the mask for the tight box of non-zero
entries; when none survives, bounds becomes none and the selection becomes
inactive. -/
def Selection.updateBounds (s : Selection) : Selection :=
  match s.mask with
  | none => { s with bounds := none }
  | some m =>
    let r := (allCoords s.width s.height).foldl (scanStep s.width m)
      (⟨s.width, s.height, 0, 0⟩, false)
    if r.2 then
      { s with bounds := some ⟨(r.1.minX : ℤ), (r.1.minY : ℤ),
          (r.1.maxX : ℤ) - r.1.minX + 1, (r.1.maxY : ℤ) - r.1.minY + 1⟩ }
    else { s with bounds := none, active := false }

/-- Selection.add: union into this selection.  With no own mask the other
mask and bounds are copied; otherwise the masks combine by per-pixel max
and the bounds are rescanned.  (The source loop runs over this.mask.length;
all uses combine equal-sized masks, which zipWith models.) -/
def Selection.add (s other : Selection) : Selection :=
  match other.mask with
  | none => s
  | some om =>
    match s.mask with
    | none => { s with mask := some om, bounds := other.bounds, active := true }
    | some m => ({ s with mask := some (List.zipWith max m om) }).updateBounds

/-- Selection.subtract: per-pixel Math.max(0, a - b), which is exactly
truncated natural subtraction; no-op unless both masks exist. -/
def Selection.subtract (s other : Selection) : Selection :=
  match s.mask, other.mask with
  | some m, some om =>
    ({ s with mask := some (List.zipWith (fun a b => a - b) m om) }).updateBounds
  | _, _ => s

/-- Selection.intersect: per-pixel min; no-op unless both masks exist. -/
def Selection.intersect (s other : Selection) : Selection :=
  match s.mask, other.mask with
  | some m, some om =>
    ({ s with mask := some (List.zipWith min m om) }).updateBounds
  | _, _ => s

/-! ## Layers and the layer stack, from class Layer and class LayerManager -/

/-- An RGBA sample of a canvas pixel. -/
structure Color where
  r : ℕ
  g : ℕ
  b : ℕ
  a : ℕ
deriving DecidableEq, Repr

/-- A layer: metadata plus the pixel buffer of its backing canvas, read at
linear index y*width+x.  The random id is omitted (no claim touches it). -/
structure Layer where
  name : String
  width : ℕ
  height : ℕ
  visible : Bool
  locked : Bool
  opacity : ℕ
  blendMode : String
  x : ℤ
  y : ℤ
  buffer : ℕ → Color

/-- The Layer constructor: fresh transparent canvas. -/
def Layer.new (width height : ℕ) (name : String) : Layer :=
  { name := name, width := width, height := height, visible := true,
    locked := false, opacity := 100, blendMode := "normal", x := 0, y := 0,
    buffer := fun _ => ⟨0, 0, 0, 0⟩ }

/-- Layer.clear: ctx.clearRect over the whole canvas, i.e. every pixel
becomes transparent black.  Note there is no locked check in the source. -/
def Layer.clear (l : Layer) : Layer :=
  { l with buffer := fun _ => ⟨0, 0, 0, 0⟩ }

/-- Layer.fill: ctx.fillRect over the whole canvas.  Modelled for the
opaque fill colors the source uses (e.g. the white background), for which
fillRect replaces every pixel.  No locked check in the source. -/
def Layer.fill (l : Layer) (color : Color) : Layer :=
  { l with buffer := fun _ => color }

/-- Layer.putImageData: ctx.putImageData at (0,0) replaces the whole
buffer verbatim (putImageData never blends).  No locked check in the
source. -/
def Layer.putImageData (l : Layer) (imageData : ℕ → Color) : Layer :=
  { l with buffer := imageData }

section BlendAbstract

/- Layer.mergeWith composites the other layer's canvas onto this one with
globalAlpha = opacity/100 and a blend-mode composite operation — float
canvas math, abstracted by the parameter mergeBuf which produces the merged
pixel buffer from the two layers. -/
variable (mergeBuf : Layer → Layer → ℕ → Color)

/-- Layer.mergeWith, with the float compositing abstracted (see above);
only the pixel buffer of the receiver changes. -/
def Layer.mergeWith (l other : Layer) : Layer :=
  { l with buffer := mergeBuf l other }

/-- The LayerManager fields. -/
structure LayerManager where
  width : ℕ
  height : ℕ
  layers : List Layer
  activeLayerIndex : ℕ

/-- LayerManager.addLayer: build the layer (white-filled for a background
layer), insert at the top (unshift) and make it active.  Returns the new
layer as the source does. -/
def LayerManager.addLayer (lm : LayerManager) (name : String)
    (isBackground : Bool) : LayerManager × Layer :=
  let nm := if name = "" then "Layer " ++ toString (lm.layers.length + 1) else name
  let layer0 := Layer.new lm.width lm.height nm
  let layer := if isBackground then layer0.fill ⟨255, 255, 255, 255⟩ else layer0
  ({ lm with layers := layer :: lm.layers, activeLayerIndex := 0 }, layer)

/-- The LayerManager constructor: records the size and creates the initial
background layer. -/
def LayerManager.init (width height : ℕ) : LayerManager :=
  (({ width := width, height := height, layers := [], activeLayerIndex := 0 }
    : LayerManager).addLayer "Background" true).1

/-- LayerManager.getActiveLayer. -/
def LayerManager.getActiveLayer (lm : LayerManager) : Layer :=
  lm.layers.getD lm.activeLayerIndex (Layer.new 0 0 "")

/-- LayerManager.removeLayer: refuse to remove the last layer; otherwise
splice the layer out and clamp the active index to the new length. -/
def LayerManager.removeLayer (lm : LayerManager) (index : ℕ) :
    LayerManager × Bool :=
  if lm.layers.length ≤ 1 then (lm, false) else
  let layers' := lm.layers.eraseIdx index
  let active' := if lm.activeLayerIndex ≥ layers'.length
                 then layers'.length - 1 else lm.activeLayerIndex
  ({ lm with layers := layers', activeLayerIndex := active' }, true)

/-- LayerManager.mergeDown: refuse on the bottom layer (or out of range);
otherwise composite layer index into index+1, remove index, and pull the
active index back by one when it pointed at or below the removed slot. -/
def LayerManager.mergeDown (lm : LayerManager) (index : ℕ) :
    LayerManager × Bool :=
  if (index : ℤ) ≥ (lm.layers.length : ℤ) - 1 then (lm, false) else
  let upperLayer := lm.layers.getD index (Layer.new 0 0 "")
  let lowerLayer := lm.layers.getD (index + 1) (Layer.new 0 0 "")
  let merged := lowerLayer.mergeWith mergeBuf upperLayer
  let layers' := (lm.layers.set (index + 1) merged).eraseIdx index
  let active' := if lm.activeLayerIndex ≥ index
                 then lm.activeLayerIndex - 1 else lm.activeLayerIndex
  ({ lm with layers := layers', activeLayerIndex := active' }, true)

/-- LayerManager.mergeVisible: merge every visible layer (bottom first)
into a fresh layer, keep only the invisible layers and put the merged
layer on top as the active layer. -/
def LayerManager.mergeVisible (lm : LayerManager) : LayerManager :=
  let merged0 := Layer.new lm.width lm.height "Merged"
  let visibleLayers := (lm.layers.filter (fun l => l.visible)).reverse
  let merged := visibleLayers.foldl (fun acc l => acc.mergeWith mergeBuf l) merged0
  { lm with
    layers := merged :: lm.layers.filter (fun l => !l.visible),
    activeLayerIndex := 0 }

/-- LayerManager.flatten: composite every visible layer (bottom first)
onto a white background layer that replaces the whole stack. -/
def LayerManager.flatten (lm : LayerManager) : LayerManager :=
  let flattened0 := (Layer.new lm.width lm.height "Background").fill ⟨255, 255, 255, 255⟩
  let flattened := lm.layers.reverse.foldl
    (fun acc l => if l.visible then acc.mergeWith mergeBuf l else acc) flattened0
  { lm with layers := [flattened], activeLayerIndex := 0 }

end BlendAbstract

/-- BrushTool.drawPoint: bail out on a locked active layer, bail out when
an active selection excludes the point, otherwise stamp the brush.  The
float canvas stamping (radial-gradient arc) is abstracted by the paint
parameter; the claims here concern only the guards. -/
def brushDrawPoint (layer : Layer) (sel : Selection) (x y : ℤ)
    (paint : Layer → Layer) : Layer :=
  if layer.locked then layer
  else if sel.hasSelection ∧ ¬ sel.containsPoint x y then layer
  else paint layer

/-- RectSelectTool.onMouseUp (the committing part): a drag of more than
2 pixels in both directions builds the rectangle selection with the
editor's feather setting, anything smaller deselects. -/
def rectSelectToolMouseUp (featherMask : ℕ → ℕ → ℕ → List ℕ → List ℕ)
    (sel : Selection) (selectionFeather : ℕ) (startX startY x y : ℤ) : Selection :=
  let width := x - startX
  let height := y - startY
  if width.natAbs > 2 ∧ height.natAbs > 2 then
    (sel.setFeather selectionFeather).createRect featherMask startX startY width height
  else sel.deselect

/-! ## Theorems about Selection invert and the boolean mask operations -/

lemma updateBounds_mask (s : Selection) : s.updateBounds.mask = s.mask := by
  unfold Selection.updateBounds
  rcases hm : s.mask with _ | m
  · rfl
  · dsimp only
    split <;> rfl

lemma inverse_mask (s : Selection) (m : List ℕ) (hm : s.mask = some m) :
    s.inverse.mask = some (m.map (fun v => 255 - v)) := by
  simp [Selection.inverse, hm]

lemma inverse_bounds (s : Selection) (m : List ℕ) (hm : s.mask = some m) :
    s.inverse.bounds = some ⟨0, 0, (s.width : ℤ), (s.height : ℤ)⟩ := by
  simp [Selection.inverse, hm]

/-- C9: with a mask present, invert rewrites every entry to 255 - value and
resets bounds to the full canvas rectangle, regardless of the extent of the
non-zero entries after inversion. -/
theorem C9_invert_mask_and_full_canvas_bounds (s : Selection) (m : List ℕ)
    (hm : s.mask = some m) (hact : s.active = true) :
    s.inverse.mask = some (m.map (fun v => 255 - v))
    ∧ s.inverse.bounds = some ⟨0, 0, (s.width : ℤ), (s.height : ℤ)⟩ :=
  ⟨inverse_mask s m hm, inverse_bounds s m hm⟩

/-- Witness for C9 on a 2x1 selection with mask [7, 250]. -/
theorem C9_invert_mask_and_full_canvas_bounds_witness :
    ({ Selection.init 2 1 with mask := some [7, 250], active := true }
      : Selection).inverse.mask = some [248, 5] := by
  have h := C9_invert_mask_and_full_canvas_bounds
    { Selection.init 2 1 with mask := some [7, 250], active := true }
    [7, 250] rfl rfl
  rw [h.1]
  decide

/-- C8: inverting twice restores the mask pixel-for-pixel (mask entries
are Uint8Array values, hence at most 255). -/
theorem C8_double_invert_restores_mask (s : Selection) (m : List ℕ)
    (hm : s.mask = some m) (hact : s.active = true)
    (hwf : ∀ v ∈ m, v ≤ 255) :
    s.inverse.inverse.mask = some m := by
  have h1 := inverse_mask s m hm
  have h2 := inverse_mask s.inverse (m.map (fun v => 255 - v)) h1
  rw [h2, List.map_map]
  have h3 : m.map ((fun v => 255 - v) ∘ (fun v => 255 - v)) = m.map id :=
    List.map_congr_left (fun a ha => by
      have := hwf a ha
      simp only [Function.comp_apply, id_eq]
      omega)
  rw [h3, List.map_id]

/-- Witness for C8 on the mask [0, 13, 255]. -/
theorem C8_double_invert_restores_mask_witness :
    ({ Selection.init 3 1 with mask := some [0, 13, 255], active := true }
      : Selection).inverse.inverse.mask = some [0, 13, 255] :=
  C8_double_invert_restores_mask
    { Selection.init 3 1 with mask := some [0, 13, 255], active := true }
    [0, 13, 255] rfl rfl (by decide)

/-- Counterexample for C10's exception clause: with A = [5, 0] and the
empty mask B = [0, 0] (one operand empty, the other not), subtract is
still not commutative, so "subtract commutes when one operand is empty"
fails. -/
theorem C10_subtract_empty_operand_counterexample :
    (({ Selection.init 1 2 with mask := some [5, 0], active := true }
        : Selection).subtract
      { Selection.init 1 2 with mask := some [0, 0], active := true }).mask
    ≠ (({ Selection.init 1 2 with mask := some [0, 0], active := true }
        : Selection).subtract
      { Selection.init 1 2 with mask := some [5, 0], active := true }).mask := by
  decide

/-- C10 (amended): union and intersect of equal-sized masks commute
(per-pixel max and min); subtract (per-pixel subtraction clamped at zero)
produces equal masks exactly when the two masks are equal — so it is not
commutative in general, and in particular commutes only when both operands
are empty, not when merely one is. -/
theorem C10_boolean_op_algebra (A B : Selection) (ma mb : List ℕ)
    (hA : A.mask = some ma) (hB : B.mask = some mb)
    (hactA : A.active = true) (hactB : B.active = true)
    (hlen : ma.length = mb.length) :
    (A.add B).mask = (B.add A).mask
    ∧ (A.intersect B).mask = (B.intersect A).mask
    ∧ ((A.subtract B).mask = (B.subtract A).mask ↔ ma = mb) := by
  refine ⟨?_, ?_, ?_⟩
  · unfold Selection.add
    rw [hA, hB]
    simp only [updateBounds_mask]
    rw [List.zipWith_comm_of_comm _ (fun a b => max_comm a b)]
  · unfold Selection.intersect
    rw [hA, hB]
    simp only [updateBounds_mask]
    rw [List.zipWith_comm_of_comm _ (fun a b => min_comm a b)]
  · unfold Selection.subtract
    rw [hA, hB]
    simp only [updateBounds_mask, Option.some.injEq]
    constructor
    · intro hEq
      refine List.ext_getElem (by omega) (fun i hi hi' => ?_)
      have hlz : i < (List.zipWith (fun a b => a - b) ma mb).length := by
        simp; omega
      have hlz' : i < (List.zipWith (fun a b => a - b) mb ma).length := by
        simp; omega
      have := congrArg (fun l => l.getD i 0) hEq
      simp only [List.getD_eq_getElem?_getD] at this
      rw [List.getElem?_eq_getElem hlz, List.getElem?_eq_getElem hlz'] at this
      simp only [List.getElem_zipWith, Option.getD_some] at this
      have h1 : ma[i] - mb[i] = mb[i] - ma[i] := this
      omega
    · intro hEq
      rw [hEq]

/-- Witness for C10 at the equal-sized masks [9, 1] and [3, 200]. -/
theorem C10_boolean_op_algebra_witness :
    ((({ Selection.init 2 1 with mask := some [9, 1], active := true }
        : Selection).add
      { Selection.init 2 1 with mask := some [3, 200], active := true }).mask
    = (({ Selection.init 2 1 with mask := some [3, 200], active := true }
        : Selection).add
      { Selection.init 2 1 with mask := some [9, 1], active := true }).mask)
    ∧ ¬ ([9, 1] = [3, 200]) := by
  have h := C10_boolean_op_algebra
    { Selection.init 2 1 with mask := some [9, 1], active := true }
    { Selection.init 2 1 with mask := some [3, 200], active := true }
    [9, 1] [3, 200] rfl rfl rfl rfl rfl
  exact ⟨h.1, by decide⟩

/-! ## Theorems about degenerate shapes (C3) -/

lemma rectCoords_nil_of_degenerate (x1 y1 x2 y2 : ℕ) (h : x2 ≤ x1 ∨ y2 ≤ y1) :
    rectCoords x1 y1 x2 y2 = [] := by
  unfold rectCoords
  rcases h with h | h
  · have hx : x2 - x1 = 0 := by omega
    rw [hx]
    simp
  · have hy : y2 - y1 = 0 := by omega
    rw [hy]
    simp

/-- Counterexample for C3: a zero-area rectangle does not clear the
selection; it leaves an all-zero mask present with active = true. -/
theorem C3_degenerate_rect_not_cleared_counterexample :
    ((Selection.init 4 4).createRect (fun _ _ _ m => m) 1 1 0 0).active = true
    ∧ ((Selection.init 4 4).createRect (fun _ _ _ m => m) 1 1 0 0).mask.isSome
        = true := by
  constructor <;> decide

/-- C3 (amended): at the Selection level a zero-area rectangle produces an
all-zero mask that is present and active (an empty active selection, not a
cleared one), and a lasso with fewer than 3 points leaves the selection
entirely unchanged; the clearing happens one level up, in the selection
tool, whose mouse-up deselects when the dragged rectangle is at most 2
pixels in either direction. -/
theorem C3_degenerate_shape_behavior (fm : ℕ → ℕ → ℕ → List ℕ → List ℕ)
    (s sel : Selection) (x y w h : ℤ) (points : List (ℚ × ℚ))
    (selectionFeather : ℕ) (startX startY ux uy : ℤ)
    (hfeather : s.feather = 0) (hdeg : w = 0 ∨ h = 0)
    (hpts : points.length < 3)
    (hdrag : (ux - startX).natAbs ≤ 2 ∨ (uy - startY).natAbs ≤ 2) :
    ((s.createRect fm x y w h).active = true
      ∧ (s.createRect fm x y w h).mask
          = some (List.replicate (s.width * s.height) 0))
    ∧ s.createLasso fm points = s
    ∧ (rectSelectToolMouseUp fm sel selectionFeather startX startY ux uy
          = sel.deselect
        ∧ sel.deselect.mask = none ∧ sel.deselect.active = false) := by
  refine ⟨?_, ?_, ?_, rfl, rfl⟩
  · have hcoords : rectCoords (max 0 (min x (x + w))).toNat
        (max 0 (min y (y + h))).toNat
        (min (s.width : ℤ) (max x (x + w))).toNat
        (min (s.height : ℤ) (max y (y + h))).toNat = [] := by
      apply rectCoords_nil_of_degenerate
      rcases hdeg with rfl | rfl
      · left
        apply Int.toNat_le_toNat
        calc min (s.width : ℤ) (max x (x + 0)) ≤ max x (x + 0) := min_le_right _ _
          _ = x := by simp
          _ = min x (x + 0) := by simp
          _ ≤ max 0 (min x (x + 0)) := le_max_right _ _
      · right
        apply Int.toNat_le_toNat
        calc min (s.height : ℤ) (max y (y + 0)) ≤ max y (y + 0) := min_le_right _ _
          _ = y := by simp
          _ = min y (y + 0) := by simp
          _ ≤ max 0 (min y (y + 0)) := le_max_right _ _
    unfold Selection.createRect
    dsimp only
    rw [hcoords]
    simp [hfeather]
  · unfold Selection.createLasso
    rw [if_pos hpts]
  · unfold rectSelectToolMouseUp
    rw [if_neg]
    omega

/-- Witness for C3's amended statement at a degenerate rectangle, an empty
lasso and a 1-pixel drag on a 4x4 canvas. -/
theorem C3_degenerate_shape_behavior_witness :
    ((Selection.init 4 4).feather = 0 ∧ ((0 : ℤ) = 0 ∨ (5 : ℤ) = 0))
    ∧ ((Selection.init 4 4).createRect (fun _ _ _ m => m) 1 1 0 5).mask
        = some (List.replicate 16 0) := by
  have hth := C3_degenerate_shape_behavior (fun _ _ _ m => m)
    (Selection.init 4 4) (Selection.init 4 4) 1 1 0 5 [] 0 0 0 1 1
    rfl (Or.inl rfl) (by decide) (by decide)
  exact ⟨⟨rfl, Or.inl rfl⟩, hth.1.2⟩

/-! ## Theorems about layer locking (C4) -/

/-- Counterexample for C4: Layer.putImageData (like clear and fill) has no
locked check, so it mutates the pixel buffer of a locked layer; the Layer
class is not a redundant safety net. -/
theorem C4_layer_methods_ignore_lock_counterexample :
    ({ Layer.new 2 2 "L" with locked := true } : Layer).locked = true
    ∧ (({ Layer.new 2 2 "L" with locked := true } : Layer).putImageData
        (fun _ => ⟨9, 9, 9, 255⟩)).buffer 0
      ≠ ({ Layer.new 2 2 "L" with locked := true } : Layer).buffer 0 := by
  refine ⟨rfl, ?_⟩
  intro hEq
  have : (⟨9, 9, 9, 255⟩ : Color) = ⟨0, 0, 0, 0⟩ := hEq
  simp at this

/-- C4 (amended): the lock on a layer is enforced by the calling tool —
BrushTool.drawPoint returns without painting when the active layer is
locked — while Layer.clear, Layer.fill and Layer.putImageData themselves
perform the pixel mutation unconditionally (there is no redundant
Layer-level enforcement). -/
theorem C4_lock_enforced_by_tool_not_layer (l : Layer) (sel : Selection)
    (x y : ℤ) (paint : Layer → Layer) (c : Color) (img : ℕ → Color)
    (hlock : l.locked = true) :
    brushDrawPoint l sel x y paint = l
    ∧ l.clear.buffer = (fun _ => ⟨0, 0, 0, 0⟩)
    ∧ (l.fill c).buffer = (fun _ => c)
    ∧ (l.putImageData img).buffer = img := by
  refine ⟨?_, rfl, rfl, rfl⟩
  unfold brushDrawPoint
  rw [hlock]
  simp

/-- Witness for C4 at a concrete locked layer. -/
theorem C4_lock_enforced_by_tool_not_layer_witness :
    ({ Layer.new 1 1 "L" with locked := true } : Layer).locked = true
    ∧ brushDrawPoint { Layer.new 1 1 "L" with locked := true }
        (Selection.init 1 1) 0 0 (fun l => l.fill ⟨1, 2, 3, 4⟩)
      = { Layer.new 1 1 "L" with locked := true } :=
  ⟨rfl, (C4_lock_enforced_by_tool_not_layer
    { Layer.new 1 1 "L" with locked := true } (Selection.init 1 1) 0 0
    (fun l => l.fill ⟨1, 2, 3, 4⟩) ⟨5, 5, 5, 5⟩ (fun _ => ⟨0, 0, 0, 0⟩) rfl).1⟩

/-! ## Theorems about the layer stack invariants (C5) -/

/-- C5: after addLayer, removeLayer, mergeDown, mergeVisible and flatten
the stack still holds at least one layer and a valid active index, and
removing the only remaining layer is rejected leaving the manager
unchanged. -/
theorem C5_layer_stack_invariants (mergeBuf : Layer → Layer → ℕ → Color)
    (lm : LayerManager) (index : ℕ) (name : String) (isBackground : Bool)
    (hne : lm.layers ≠ []) (hact : lm.activeLayerIndex < lm.layers.length) :
    ((lm.addLayer name isBackground).1.layers ≠ []
      ∧ (lm.addLayer name isBackground).1.activeLayerIndex
          < (lm.addLayer name isBackground).1.layers.length)
    ∧ ((lm.removeLayer index).1.layers ≠ []
      ∧ (lm.removeLayer index).1.activeLayerIndex
          < (lm.removeLayer index).1.layers.length)
    ∧ ((lm.mergeDown mergeBuf index).1.layers ≠ []
      ∧ (lm.mergeDown mergeBuf index).1.activeLayerIndex
          < (lm.mergeDown mergeBuf index).1.layers.length)
    ∧ ((lm.mergeVisible mergeBuf).layers ≠ []
      ∧ (lm.mergeVisible mergeBuf).activeLayerIndex
          < (lm.mergeVisible mergeBuf).layers.length)
    ∧ ((lm.flatten mergeBuf).layers ≠ []
      ∧ (lm.flatten mergeBuf).activeLayerIndex
          < (lm.flatten mergeBuf).layers.length)
    ∧ (lm.layers.length = 1 → lm.removeLayer index = (lm, false)) := by
  have hlenpos : 0 < lm.layers.length := List.length_pos.mpr hne
  refine ⟨?_, ?_, ?_, ?_, ?_, ?_⟩
  · unfold LayerManager.addLayer
    exact ⟨List.cons_ne_nil _ _, by simp⟩
  · unfold LayerManager.removeLayer
    by_cases h1 : lm.layers.length ≤ 1
    · rw [if_pos h1]
      exact ⟨hne, hact⟩
    · rw [if_neg h1]
      dsimp only
      have he : (lm.layers.eraseIdx index).length =
          if index < lm.layers.length then lm.layers.length - 1
          else lm.layers.length := by
        rw [List.length_eraseIdx]
      have hge : 1 ≤ (lm.layers.eraseIdx index).length := by
        split at he <;> omega
      refine ⟨List.length_pos.mp (by omega), ?_⟩
      split <;> omega
  · unfold LayerManager.mergeDown
    by_cases h2 : (index : ℤ) ≥ (lm.layers.length : ℤ) - 1
    · rw [if_pos h2]
      exact ⟨hne, hact⟩
    · rw [if_neg h2]
      dsimp only
      have hidx : index + 1 < lm.layers.length := by omega
      have hsetlen : ((lm.layers.set (index + 1)
          ((lm.layers.getD (index + 1) (Layer.new 0 0 "")).mergeWith mergeBuf
            (lm.layers.getD index (Layer.new 0 0 "")))).eraseIdx index).length
          = lm.layers.length - 1 := by
        rw [List.length_eraseIdx]
        simp only [List.length_set]
        rw [if_pos (by omega)]
      refine ⟨List.length_pos.mp (by omega), ?_⟩
      rw [hsetlen]
      split <;> omega
  · unfold LayerManager.mergeVisible
    exact ⟨List.cons_ne_nil _ _, by simp⟩
  · unfold LayerManager.flatten
    exact ⟨List.cons_ne_nil _ _, by simp⟩
  · intro h1
    unfold LayerManager.removeLayer
    rw [if_pos (by omega)]

/-- A concrete two-layer manager used by the C5 witness. -/
def lmSample : LayerManager :=
  { width := 2, height := 2, layers := [Layer.new 2 2 "A", Layer.new 2 2 "B"],
    activeLayerIndex := 1 }

/-- Witness for C5 at a two-layer stack with active index 1. -/
theorem C5_layer_stack_invariants_witness :
    (lmSample.layers ≠ [] ∧ lmSample.activeLayerIndex < lmSample.layers.length)
    ∧ (lmSample.removeLayer 0).1.layers ≠ [] := by
  have hne : lmSample.layers ≠ [] := by simp [lmSample]
  have hact : lmSample.activeLayerIndex < lmSample.layers.length := by simp [lmSample]
  have h := C5_layer_stack_invariants (fun _ _ _ => ⟨0, 0, 0, 0⟩)
    lmSample 0 "X" false hne hact
  exact ⟨⟨hne, hact⟩, h.2.1.1⟩

/-! ## Flood traversal: shared machinery for Utils.magicWandSelect and
Utils.floodFill -/

/-- Pixel coordinates inside the canvas (the negation of the source's
`x < 0 || x >= width || y < 0 || y >= height` skip test). -/
def inB (W H : ℕ) (p : ℤ × ℤ) : Prop :=
  0 ≤ p.1 ∧ p.1 < (W : ℤ) ∧ 0 ≤ p.2 ∧ p.2 < (H : ℤ)

instance (W H : ℕ) (p : ℤ × ℤ) : Decidable (inB W H p) := by
  unfold inB; exact inferInstance

/-- The linear pixel index y*width+x of an in-bounds coordinate. -/
def pixIdx (W : ℕ) (p : ℤ × ℤ) : ℕ := (p.2 * W + p.1).toNat

/-- Canvas coordinates as a finite set, for the termination measure. -/
def gridF (W H : ℕ) : Finset (ℤ × ℤ) :=
  Finset.Icc 0 ((W : ℤ) - 1) ×ˢ Finset.Icc 0 ((H : ℤ) - 1)

lemma mem_gridF (W H : ℕ) (p : ℤ × ℤ) : p ∈ gridF W H ↔ inB W H p := by
  cases p with
  | mk x y =>
    simp only [gridF, Finset.mem_product, Finset.mem_Icc, inB]
    omega

/-- Termination measure of the visited-set worklist loops: unvisited cells
weighted five-fold plus the stack size. -/
def floodMeasure (W H : ℕ) (visited : Finset (ℤ × ℤ)) (stack : List (ℤ × ℤ)) : ℕ :=
  5 * ((gridF W H).card - (visited ∩ gridF W H).card) + stack.length

lemma floodMeasure_lt_skip (W H : ℕ) (visited : Finset (ℤ × ℤ))
    (p : ℤ × ℤ) (rest : List (ℤ × ℤ)) :
    floodMeasure W H visited rest < floodMeasure W H visited (p :: rest) := by
  simp [floodMeasure]

lemma floodMeasure_lt_process (W H : ℕ) (visited : Finset (ℤ × ℤ))
    (p q1 q2 q3 q4 : ℤ × ℤ) (rest : List (ℤ × ℤ))
    (hp : inB W H p) (hnv : p ∉ visited) :
    floodMeasure W H (insert p visited) (q1 :: q2 :: q3 :: q4 :: rest) <
      floodMeasure W H visited (p :: rest) := by
  have hpg : p ∈ gridF W H := (mem_gridF W H p).mpr hp
  have h1 : insert p visited ∩ gridF W H = insert p (visited ∩ gridF W H) :=
    Finset.insert_inter_of_mem hpg
  have h2 : p ∉ visited ∩ gridF W H := fun hmem => hnv (Finset.mem_of_mem_inter_left hmem)
  have h3 : (insert p visited ∩ gridF W H).card = (visited ∩ gridF W H).card + 1 := by
    rw [h1, Finset.card_insert_of_not_mem h2]
  have h4 : (insert p visited ∩ gridF W H).card ≤ (gridF W H).card :=
    Finset.card_le_card (Finset.inter_subset_right)
  simp only [floodMeasure, List.length_cons, h3]
  omega

/-- The worklist traversal shared by the contiguous magic wand and the
flood fill: pop a coordinate, skip it when out of canvas, already visited
or not matching, otherwise mark it visited and push its four neighbours
(the source pushes [x+1,y],[x-1,y],[x,y+1],[x,y-1] and pops from the end
of the array, so [x,y-1] is processed next — the list head here).  Returns
the final visited set. -/
def floodVisit (W H : ℕ) (good : ℤ × ℤ → Bool) :
    List (ℤ × ℤ) → Finset (ℤ × ℤ) → Finset (ℤ × ℤ)
  | [], visited => visited
  | p :: rest, visited =>
    if p.1 < 0 ∨ p.1 ≥ (W : ℤ) ∨ p.2 < 0 ∨ p.2 ≥ (H : ℤ) then
      floodVisit W H good rest visited
    else if p ∈ visited then floodVisit W H good rest visited
    else if ¬ good p then floodVisit W H good rest visited
    else
      floodVisit W H good
        ((p.1, p.2 - 1) :: (p.1, p.2 + 1) :: (p.1 - 1, p.2) :: (p.1 + 1, p.2) :: rest)
        (insert p visited)
termination_by stack visited => floodMeasure W H visited stack
decreasing_by
  · exact floodMeasure_lt_skip W H visited p rest
  · exact floodMeasure_lt_skip W H visited p rest
  · exact floodMeasure_lt_skip W H visited p rest
  · exact floodMeasure_lt_process W H visited p _ _ _ _ rest
      (by unfold inB; omega) (by assumption)

lemma floodVisit_nil (W H : ℕ) (good : ℤ × ℤ → Bool) (visited : Finset (ℤ × ℤ)) :
    floodVisit W H good [] visited = visited := by
  rw [floodVisit]

lemma floodVisit_oob (W H : ℕ) (good : ℤ × ℤ → Bool) (p : ℤ × ℤ)
    (rest : List (ℤ × ℤ)) (visited : Finset (ℤ × ℤ)) (h : ¬ inB W H p) :
    floodVisit W H good (p :: rest) visited = floodVisit W H good rest visited := by
  rw [floodVisit]
  rw [if_pos (by unfold inB at h; omega)]

lemma floodVisit_visited (W H : ℕ) (good : ℤ × ℤ → Bool) (p : ℤ × ℤ)
    (rest : List (ℤ × ℤ)) (visited : Finset (ℤ × ℤ)) (hin : inB W H p)
    (h : p ∈ visited) :
    floodVisit W H good (p :: rest) visited = floodVisit W H good rest visited := by
  rw [floodVisit]
  rw [if_neg (by unfold inB at hin; omega), if_pos h]

lemma floodVisit_bad (W H : ℕ) (good : ℤ × ℤ → Bool) (p : ℤ × ℤ)
    (rest : List (ℤ × ℤ)) (visited : Finset (ℤ × ℤ)) (hin : inB W H p)
    (hnv : p ∉ visited) (h : ¬ good p) :
    floodVisit W H good (p :: rest) visited = floodVisit W H good rest visited := by
  rw [floodVisit]
  rw [if_neg (by unfold inB at hin; omega), if_neg hnv, if_pos h]

lemma floodVisit_process (W H : ℕ) (good : ℤ × ℤ → Bool) (p : ℤ × ℤ)
    (rest : List (ℤ × ℤ)) (visited : Finset (ℤ × ℤ)) (hin : inB W H p)
    (hnv : p ∉ visited) (h : good p) :
    floodVisit W H good (p :: rest) visited =
      floodVisit W H good
        ((p.1, p.2 - 1) :: (p.1, p.2 + 1) :: (p.1 - 1, p.2) :: (p.1 + 1, p.2) :: rest)
        (insert p visited) := by
  rw [floodVisit]
  rw [if_neg (by unfold inB at hin; omega), if_neg hnv, if_neg (by simp [h])]

/-- Four-connectivity of pixel coordinates. -/
def adjacent (p q : ℤ × ℤ) : Prop :=
  q = (p.1 + 1, p.2) ∨ q = (p.1 - 1, p.2) ∨ q = (p.1, p.2 + 1) ∨ q = (p.1, p.2 - 1)

/-- The 4-connected region of matching in-canvas pixels reachable from the
seed: the mathematical description that the worklist loops are checked
against. -/
inductive Reach (W H : ℕ) (good : ℤ × ℤ → Bool) (seed : ℤ × ℤ) : ℤ × ℤ → Prop
  | base : inB W H seed → good seed = true → Reach W H good seed seed
  | step {p q : ℤ × ℤ} : Reach W H good seed p → adjacent p q →
      inB W H q → good q = true → Reach W H good seed q

/-- Invariants of the worklist traversal: visited cells are reachable,
good in-canvas stack cells are reachable, every good in-canvas neighbour
of a visited cell is visited or scheduled, and the seed is visited or
scheduled (when it is good and in canvas). -/
def FloodInv (W H : ℕ) (good : ℤ × ℤ → Bool) (seed : ℤ × ℤ)
    (stack : List (ℤ × ℤ)) (visited : Finset (ℤ × ℤ)) : Prop :=
  (∀ p ∈ visited, Reach W H good seed p)
  ∧ (∀ p ∈ stack, inB W H p → good p = true → Reach W H good seed p)
  ∧ (∀ p ∈ visited, ∀ q, adjacent p q → inB W H q → good q = true →
      q ∈ visited ∨ q ∈ stack)
  ∧ (inB W H seed → good seed = true → seed ∈ visited ∨ seed ∈ stack)

lemma floodVisit_mono (W H : ℕ) (good : ℤ × ℤ → Bool) :
    ∀ n (stack : List (ℤ × ℤ)) (visited : Finset (ℤ × ℤ)),
      floodMeasure W H visited stack ≤ n →
      visited ⊆ floodVisit W H good stack visited := by
  intro n
  induction n using Nat.strong_induction_on with
  | _ n ih =>
    intro stack visited hm
    match stack with
    | [] => rw [floodVisit_nil]
    | p :: rest =>
      by_cases hin : inB W H p
      · by_cases hv : p ∈ visited
        · rw [floodVisit_visited W H good p rest visited hin hv]
          exact ih _ (lt_of_lt_of_le (floodMeasure_lt_skip W H visited p rest) hm)
            rest visited le_rfl
        · by_cases hg : good p
          · rw [floodVisit_process W H good p rest visited hin hv hg]
            exact Finset.Subset.trans (Finset.subset_insert p visited)
              (ih _ (lt_of_lt_of_le
                  (floodMeasure_lt_process W H visited p _ _ _ _ rest hin hv) hm)
                _ _ le_rfl)
          · rw [floodVisit_bad W H good p rest visited hin hv hg]
            exact ih _ (lt_of_lt_of_le (floodMeasure_lt_skip W H visited p rest) hm)
              rest visited le_rfl
      · rw [floodVisit_oob W H good p rest visited hin]
        exact ih _ (lt_of_lt_of_le (floodMeasure_lt_skip W H visited p rest) hm)
          rest visited le_rfl

lemma floodVisit_subset (W H : ℕ) (good : ℤ × ℤ → Bool)
    (stack : List (ℤ × ℤ)) (visited : Finset (ℤ × ℤ)) :
    visited ⊆ floodVisit W H good stack visited :=
  floodVisit_mono W H good _ stack visited le_rfl

lemma floodVisit_new_inB (W H : ℕ) (good : ℤ × ℤ → Bool) :
    ∀ n (stack : List (ℤ × ℤ)) (visited : Finset (ℤ × ℤ)),
      floodMeasure W H visited stack ≤ n →
      ∀ p ∈ floodVisit W H good stack visited, p ∈ visited ∨ (inB W H p ∧ good p = true) := by
  intro n
  induction n using Nat.strong_induction_on with
  | _ n ih =>
    intro stack visited hm
    match stack with
    | [] =>
      rw [floodVisit_nil]
      exact fun p hp => Or.inl hp
    | p :: rest =>
      by_cases hin : inB W H p
      · by_cases hv : p ∈ visited
        · rw [floodVisit_visited W H good p rest visited hin hv]
          exact ih _ (lt_of_lt_of_le (floodMeasure_lt_skip W H visited p rest) hm)
            rest visited le_rfl
        · by_cases hg : good p
          · rw [floodVisit_process W H good p rest visited hin hv hg]
            intro q hq
            rcases ih _ (lt_of_lt_of_le
                (floodMeasure_lt_process W H visited p _ _ _ _ rest hin hv) hm)
                _ _ le_rfl q hq with h | h
            · rcases Finset.mem_insert.mp h with h' | h'
              · exact Or.inr (h' ▸ ⟨hin, hg⟩)
              · exact Or.inl h'
            · exact Or.inr h
          · rw [floodVisit_bad W H good p rest visited hin hv hg]
            exact ih _ (lt_of_lt_of_le (floodMeasure_lt_skip W H visited p rest) hm)
              rest visited le_rfl
      · rw [floodVisit_oob W H good p rest visited hin]
        exact ih _ (lt_of_lt_of_le (floodMeasure_lt_skip W H visited p rest) hm)
          rest visited le_rfl

lemma floodVisit_correct (W H : ℕ) (good : ℤ × ℤ → Bool) (seed : ℤ × ℤ) :
    ∀ n (stack : List (ℤ × ℤ)) (visited : Finset (ℤ × ℤ)),
      floodMeasure W H visited stack ≤ n →
      FloodInv W H good seed stack visited →
      ((∀ p ∈ floodVisit W H good stack visited, p ∈ visited ∨ Reach W H good seed p)
        ∧ (∀ p, Reach W H good seed p → p ∈ floodVisit W H good stack visited)) := by
  intro n
  induction n using Nat.strong_induction_on with
  | _ n ih =>
    intro stack visited hm hInv
    obtain ⟨h1, h2, h3, h4⟩ := hInv
    match stack with
    | [] =>
      rw [floodVisit_nil]
      refine ⟨fun p hp => Or.inl hp, ?_⟩
      intro p hr
      induction hr with
      | base hseed hgood =>
        rcases h4 hseed hgood with h | h
        · exact h
        · exact absurd h (List.not_mem_nil _)
      | step hp hadj hinq hgood ihr =>
        rcases h3 _ ihr _ hadj hinq hgood with h | h
        · exact h
        · exact absurd h (List.not_mem_nil _)
    | p :: rest =>
      by_cases hin : inB W H p
      · by_cases hv : p ∈ visited
        · rw [floodVisit_visited W H good p rest visited hin hv]
          refine ih _ (lt_of_lt_of_le (floodMeasure_lt_skip W H visited p rest) hm)
            rest visited le_rfl ⟨h1, ?_, ?_, ?_⟩
          · exact fun q hq => h2 q (List.mem_cons_of_mem p hq)
          · intro r hr q hadj hinq hgq
            rcases h3 r hr q hadj hinq hgq with h | h
            · exact Or.inl h
            · rcases List.mem_cons.mp h with h' | h'
              · exact Or.inl (h' ▸ hv)
              · exact Or.inr h'
          · intro hins hgs
            rcases h4 hins hgs with h | h
            · exact Or.inl h
            · rcases List.mem_cons.mp h with h' | h'
              · exact Or.inl (h' ▸ hv)
              · exact Or.inr h'
        · by_cases hg : good p
          · rw [floodVisit_process W H good p rest visited hin hv hg]
            have hpReach : Reach W H good seed p := h2 p (List.mem_cons_self p rest) hin hg
            have hInv' : FloodInv W H good seed
                ((p.1, p.2 - 1) :: (p.1, p.2 + 1) :: (p.1 - 1, p.2) :: (p.1 + 1, p.2) :: rest)
                (insert p visited) := by
              refine ⟨?_, ?_, ?_, ?_⟩
              · intro r hr
                rcases Finset.mem_insert.mp hr with h' | h'
                · exact h' ▸ hpReach
                · exact h1 r h'
              · intro q hq hinq hgq
                simp only [List.mem_cons] at hq
                rcases hq with h' | h' | h' | h' | h'
                · exact Reach.step hpReach (Or.inr (Or.inr (Or.inr h'))) hinq hgq
                · exact Reach.step hpReach (Or.inr (Or.inr (Or.inl h'))) hinq hgq
                · exact Reach.step hpReach (Or.inr (Or.inl h')) hinq hgq
                · exact Reach.step hpReach (Or.inl h') hinq hgq
                · exact h2 q (List.mem_cons_of_mem p h') hinq hgq
              · intro r hr q hadj hinq hgq
                rcases Finset.mem_insert.mp hr with h' | h'
                · subst h'
                  rcases hadj with h' | h' | h' | h' <;>
                    · subst h'
                      simp only [List.mem_cons]
                      tauto
                · rcases h3 r h' q hadj hinq hgq with hh | hh
                  · exact Or.inl (Finset.mem_insert_of_mem hh)
                  · rcases List.mem_cons.mp hh with h'' | h''
                    · exact Or.inl (h'' ▸ Finset.mem_insert_self p visited)
                    · simp only [List.mem_cons]
                      tauto
              · intro hins hgs
                rcases h4 hins hgs with h | h
                · exact Or.inl (Finset.mem_insert_of_mem h)
                · rcases List.mem_cons.mp h with h' | h'
                  · exact Or.inl (h' ▸ Finset.mem_insert_self p visited)
                  · simp only [List.mem_cons]
                    tauto
            have hrec := ih _ (lt_of_lt_of_le
                (floodMeasure_lt_process W H visited p _ _ _ _ rest hin hv) hm)
              _ _ le_rfl hInv'
            refine ⟨?_, hrec.2⟩
            intro q hq
            rcases hrec.1 q hq with h' | h'
            · rcases Finset.mem_insert.mp h' with h'' | h''
              · exact Or.inr (h'' ▸ hpReach)
              · exact Or.inl h''
            · exact Or.inr h'
          · rw [floodVisit_bad W H good p rest visited hin hv hg]
            refine ih _ (lt_of_lt_of_le (floodMeasure_lt_skip W H visited p rest) hm)
              rest visited le_rfl ⟨h1, ?_, ?_, ?_⟩
            · exact fun q hq => h2 q (List.mem_cons_of_mem p hq)
            · intro r hr q hadj hinq hgq
              rcases h3 r hr q hadj hinq hgq with h | h
              · exact Or.inl h
              · rcases List.mem_cons.mp h with h' | h'
                · exact absurd (h' ▸ hgq) hg
                · exact Or.inr h'
            · intro hins hgs
              rcases h4 hins hgs with h | h
              · exact Or.inl h
              · rcases List.mem_cons.mp h with h' | h'
                · exact absurd (h' ▸ hgs) hg
                · exact Or.inr h'
      · rw [floodVisit_oob W H good p rest visited hin]
        refine ih _ (lt_of_lt_of_le (floodMeasure_lt_skip W H visited p rest) hm)
          rest visited le_rfl ⟨h1, ?_, ?_, ?_⟩
        · exact fun q hq => h2 q (List.mem_cons_of_mem p hq)
        · intro r hr q hadj hinq hgq
          rcases h3 r hr q hadj hinq hgq with h | h
          · exact Or.inl h
          · rcases List.mem_cons.mp h with h' | h'
            · exact absurd (h' ▸ hinq) hin
            · exact Or.inr h'
        · intro hins hgs
          rcases h4 hins hgs with h | h
          · exact Or.inl h
          · rcases List.mem_cons.mp h with h' | h'
            · exact absurd (h' ▸ hins) hin
            · exact Or.inr h'

/-- Started from the seed alone with nothing visited, the traversal visits
exactly the reachable region. -/
lemma floodVisit_eq_reach (W H : ℕ) (good : ℤ × ℤ → Bool) (seed : ℤ × ℤ) :
    ∀ p, p ∈ floodVisit W H good [seed] ∅ ↔ Reach W H good seed p := by
  have hInv : FloodInv W H good seed [seed] ∅ := by
    refine ⟨fun p hp => absurd hp (Finset.not_mem_empty p), ?_,
      fun p hp => absurd hp (Finset.not_mem_empty p), ?_⟩
    · intro p hp hin hg
      rcases List.mem_singleton.mp hp with rfl
      exact Reach.base hin hg
    · intro hin hg
      exact Or.inr (List.mem_singleton.mpr rfl)
  have h := floodVisit_correct W H good seed (floodMeasure W H ∅ [seed]) [seed] ∅
    le_rfl hInv
  intro p
  constructor
  · intro hp
    rcases h.1 p hp with h' | h'
    · exact absurd h' (Finset.not_mem_empty p)
    · exact h'
  · exact h.2 p

/-! ## Utils.magicWandSelect -/

/-- ImageData: RGBA-interleaved byte array with its dimensions. -/
structure ImageData where
  width : ℕ
  height : ℕ
  data : List ℕ
deriving DecidableEq, Repr

/-- Math.abs of the difference of two channel values. -/
def chanDiff (a b : ℕ) : ℕ := ((a : ℤ) - b).natAbs

/-- The colorMatch closure of Utils.magicWandSelect: every one of the
three R/G/B channel deltas is at most the tolerance. -/
def wandMatch (pixels : List ℕ) (sR sG sB tol : ℕ) (idx : ℕ) : Bool :=
  decide (chanDiff (pixels.getD idx 0) sR ≤ tol)
    && decide (chanDiff (pixels.getD (idx + 1) 0) sG ≤ tol)
    && decide (chanDiff (pixels.getD (idx + 2) 0) sB ≤ tol)

/-- The match predicate on coordinates used by the contiguous wand. -/
def wandGood (W : ℕ) (pixels : List ℕ) (sR sG sB tol : ℕ) : ℤ × ℤ → Bool :=
  fun p => wandMatch pixels sR sG sB tol (pixIdx W p * 4)

/-- The contiguous branch of Utils.magicWandSelect: the visited-set stack
loop, writing 255 into the mask at each newly visited matching pixel. -/
def wandLoop (W H : ℕ) (pixels : List ℕ) (sR sG sB tol : ℕ) :
    List (ℤ × ℤ) → Finset (ℤ × ℤ) → List ℕ → List ℕ
  | [], _, mask => mask
  | p :: rest, visited, mask =>
    if p.1 < 0 ∨ p.1 ≥ (W : ℤ) ∨ p.2 < 0 ∨ p.2 ≥ (H : ℤ) then
      wandLoop W H pixels sR sG sB tol rest visited mask
    else if p ∈ visited then wandLoop W H pixels sR sG sB tol rest visited mask
    else if ¬ wandMatch pixels sR sG sB tol (pixIdx W p * 4) then
      wandLoop W H pixels sR sG sB tol rest visited mask
    else
      wandLoop W H pixels sR sG sB tol
        ((p.1, p.2 - 1) :: (p.1, p.2 + 1) :: (p.1 - 1, p.2) :: (p.1 + 1, p.2) :: rest)
        (insert p visited) (mask.set (pixIdx W p) 255)
termination_by stack visited => floodMeasure W H visited stack
decreasing_by
  · exact floodMeasure_lt_skip W H visited p rest
  · exact floodMeasure_lt_skip W H visited p rest
  · exact floodMeasure_lt_skip W H visited p rest
  · exact floodMeasure_lt_process W H visited p _ _ _ _ rest
      (by unfold inB; omega) (by assumption)

/-- Utils.magicWandSelect: sample the seed color, then in contiguous mode
run the 4-connected visited-set loop from the seed, otherwise scan every
pixel of the buffer for a match. -/
def magicWandSelect (imageData : ImageData) (startX startY : ℤ)
    (tolerance : ℕ) (contiguous : Bool) : List ℕ :=
  let W := imageData.width
  let H := imageData.height
  let pixels := imageData.data
  let mask := List.replicate (W * H) 0
  let startIdx := (startY * W + startX).toNat * 4
  let sR := pixels.getD startIdx 0
  let sG := pixels.getD (startIdx + 1) 0
  let sB := pixels.getD (startIdx + 2) 0
  if contiguous then
    wandLoop W H pixels sR sG sB tolerance [(startX, startY)] ∅ mask
  else
    (List.range (W * H)).foldl
      (fun m i => if wandMatch pixels sR sG sB tolerance (i * 4) then m.set i 255 else m)
      mask

lemma wandLoop_nil (W H : ℕ) (pixels : List ℕ) (sR sG sB tol : ℕ)
    (visited : Finset (ℤ × ℤ)) (mask : List ℕ) :
    wandLoop W H pixels sR sG sB tol [] visited mask = mask := by
  rw [wandLoop]

lemma wandLoop_oob (W H : ℕ) (pixels : List ℕ) (sR sG sB tol : ℕ)
    (p : ℤ × ℤ) (rest : List (ℤ × ℤ)) (visited : Finset (ℤ × ℤ)) (mask : List ℕ)
    (h : ¬ inB W H p) :
    wandLoop W H pixels sR sG sB tol (p :: rest) visited mask =
      wandLoop W H pixels sR sG sB tol rest visited mask := by
  rw [wandLoop]
  rw [if_pos (by unfold inB at h; omega)]

lemma wandLoop_visited (W H : ℕ) (pixels : List ℕ) (sR sG sB tol : ℕ)
    (p : ℤ × ℤ) (rest : List (ℤ × ℤ)) (visited : Finset (ℤ × ℤ)) (mask : List ℕ)
    (hin : inB W H p) (h : p ∈ visited) :
    wandLoop W H pixels sR sG sB tol (p :: rest) visited mask =
      wandLoop W H pixels sR sG sB tol rest visited mask := by
  rw [wandLoop]
  rw [if_neg (by unfold inB at hin; omega), if_pos h]

lemma wandLoop_bad (W H : ℕ) (pixels : List ℕ) (sR sG sB tol : ℕ)
    (p : ℤ × ℤ) (rest : List (ℤ × ℤ)) (visited : Finset (ℤ × ℤ)) (mask : List ℕ)
    (hin : inB W H p) (hnv : p ∉ visited)
    (h : ¬ wandMatch pixels sR sG sB tol (pixIdx W p * 4)) :
    wandLoop W H pixels sR sG sB tol (p :: rest) visited mask =
      wandLoop W H pixels sR sG sB tol rest visited mask := by
  rw [wandLoop]
  rw [if_neg (by unfold inB at hin; omega), if_neg hnv, if_pos h]

lemma wandLoop_process (W H : ℕ) (pixels : List ℕ) (sR sG sB tol : ℕ)
    (p : ℤ × ℤ) (rest : List (ℤ × ℤ)) (visited : Finset (ℤ × ℤ)) (mask : List ℕ)
    (hin : inB W H p) (hnv : p ∉ visited)
    (h : wandMatch pixels sR sG sB tol (pixIdx W p * 4)) :
    wandLoop W H pixels sR sG sB tol (p :: rest) visited mask =
      wandLoop W H pixels sR sG sB tol
        ((p.1, p.2 - 1) :: (p.1, p.2 + 1) :: (p.1 - 1, p.2) :: (p.1 + 1, p.2) :: rest)
        (insert p visited) (mask.set (pixIdx W p) 255) := by
  rw [wandLoop]
  rw [if_neg (by unfold inB at hin; omega), if_neg hnv, if_neg (by simp [h])]

lemma getD_set_self (l : List ℕ) (i v : ℕ) (h : i < l.length) :
    (l.set i v).getD i 0 = v := by
  simp [List.getD_eq_getElem?_getD, List.getElem?_set, h]

lemma getD_set_ne (l : List ℕ) (i j v : ℕ) (h : i ≠ j) :
    (l.set i v).getD j 0 = l.getD j 0 := by
  simp [List.getD_eq_getElem?_getD, List.getElem?_set, h]

/-- The contiguous wand loop writes 255 exactly at the cells that the
visited-set traversal newly visits, and leaves the rest of the mask
alone. -/
lemma wandLoop_spec (W H : ℕ) (pixels : List ℕ) (sR sG sB tol : ℕ) :
    ∀ n (stack : List (ℤ × ℤ)) (visited : Finset (ℤ × ℤ)) (mask : List ℕ),
      floodMeasure W H visited stack ≤ n →
      ((wandLoop W H pixels sR sG sB tol stack visited mask).length = mask.length
        ∧ ∀ j, j < mask.length →
          (wandLoop W H pixels sR sG sB tol stack visited mask).getD j 0 =
            if ∃ p ∈ floodVisit W H (wandGood W pixels sR sG sB tol) stack visited,
                p ∉ visited ∧ pixIdx W p = j
            then 255 else mask.getD j 0) := by
  intro n
  induction n using Nat.strong_induction_on with
  | _ n ih =>
    intro stack visited mask hm
    match stack with
    | [] =>
      rw [wandLoop_nil, floodVisit_nil]
      refine ⟨rfl, fun j hj => ?_⟩
      rw [if_neg]
      rintro ⟨p, hp, hnp, -⟩
      exact hnp hp
    | p :: rest =>
      by_cases hin : inB W H p
      · by_cases hv : p ∈ visited
        · rw [wandLoop_visited W H pixels sR sG sB tol p rest visited mask hin hv,
            floodVisit_visited W H _ p rest visited hin hv]
          exact ih _ (lt_of_lt_of_le (floodMeasure_lt_skip W H visited p rest) hm)
            rest visited mask le_rfl
        · by_cases hg : wandMatch pixels sR sG sB tol (pixIdx W p * 4)
          · rw [wandLoop_process W H pixels sR sG sB tol p rest visited mask hin hv hg,
              floodVisit_process W H _ p rest visited hin hv hg]
            have hrec := ih (floodMeasure W H (insert p visited)
                ((p.1, p.2 - 1) :: (p.1, p.2 + 1) :: (p.1 - 1, p.2) :: (p.1 + 1, p.2) :: rest))
              (lt_of_lt_of_le
                (floodMeasure_lt_process W H visited p _ _ _ _ rest hin hv) hm)
              ((p.1, p.2 - 1) :: (p.1, p.2 + 1) :: (p.1 - 1, p.2) :: (p.1 + 1, p.2) :: rest)
              (insert p visited) (mask.set (pixIdx W p) 255) le_rfl
            refine ⟨by rw [hrec.1, List.length_set], fun j hj => ?_⟩
            have hj' : j < (mask.set (pixIdx W p) 255).length := by
              rw [List.length_set]; exact hj
            rw [hrec.2 j hj']
            have hpFV : p ∈ floodVisit W H (wandGood W pixels sR sG sB tol)
                ((p.1, p.2 - 1) :: (p.1, p.2 + 1) :: (p.1 - 1, p.2) :: (p.1 + 1, p.2) :: rest)
                (insert p visited) :=
              floodVisit_subset W H _ _ _ (Finset.mem_insert_self p visited)
            by_cases hex : ∃ q ∈ floodVisit W H (wandGood W pixels sR sG sB tol)
                ((p.1, p.2 - 1) :: (p.1, p.2 + 1) :: (p.1 - 1, p.2) :: (p.1 + 1, p.2) :: rest)
                (insert p visited), q ∉ insert p visited ∧ pixIdx W q = j
            · rw [if_pos hex]
              obtain ⟨q, hqFV, hqnv, hqj⟩ := hex
              rw [if_pos ⟨q, hqFV, fun hq => hqnv (Finset.mem_insert_of_mem hq), hqj⟩]
            · rw [if_neg hex]
              by_cases hjp : pixIdx W p = j
              · rw [if_pos ⟨p, hpFV, hv, hjp⟩]
                rw [← hjp]
                exact getD_set_self mask (pixIdx W p) 255 (hjp ▸ hj)
              · rw [if_neg, getD_set_ne mask _ j 255 hjp]
                rintro ⟨q, hqFV, hqnv, hqj⟩
                have hq' : q ∈ insert p visited := by
                  by_contra hq''
                  exact hex ⟨q, hqFV, hq'', hqj⟩
                rcases Finset.mem_insert.mp hq' with rfl | hq''
                · exact hjp hqj
                · exact hqnv hq''
          · rw [wandLoop_bad W H pixels sR sG sB tol p rest visited mask hin hv hg,
              floodVisit_bad W H _ p rest visited hin hv hg]
            exact ih _ (lt_of_lt_of_le (floodMeasure_lt_skip W H visited p rest) hm)
              rest visited mask le_rfl
      · rw [wandLoop_oob W H pixels sR sG sB tol p rest visited mask hin,
          floodVisit_oob W H _ p rest visited hin]
        exact ih _ (lt_of_lt_of_le (floodMeasure_lt_skip W H visited p rest) hm)
          rest visited mask le_rfl

lemma reach_inB {W H : ℕ} {good : ℤ × ℤ → Bool} {seed p : ℤ × ℤ}
    (h : Reach W H good seed p) : inB W H p := by
  cases h with
  | base hin _ => exact hin
  | step _ _ hin _ => exact hin

lemma pixIdx_inj (W H : ℕ) (p q : ℤ × ℤ) (hp : inB W H p) (hq : inB W H q)
    (h : pixIdx W p = pixIdx W q) : p = q := by
  obtain ⟨px, py⟩ := p
  obtain ⟨qx, qy⟩ := q
  unfold pixIdx at h
  unfold inB at hp hq
  simp only at hp hq h
  obtain ⟨hpx0, hpxW, hpy0, hpyW⟩ := hp
  obtain ⟨hqx0, hqxW, hqy0, hqyW⟩ := hq
  have hA : 0 ≤ py * (W : ℤ) := mul_nonneg hpy0 (by positivity)
  have hB : 0 ≤ qy * (W : ℤ) := mul_nonneg hqy0 (by positivity)
  have hZ : py * (W : ℤ) + px = qy * W + qx := by omega
  have hx : px = qx := by
    have h1 : (px + py * (W : ℤ)) % W = px := by
      rw [Int.add_mul_emod_self]
      exact Int.emod_eq_of_lt hpx0 hpxW
    have h2 : (qx + qy * (W : ℤ)) % W = qx := by
      rw [Int.add_mul_emod_self]
      exact Int.emod_eq_of_lt hqx0 hqxW
    calc px = (px + py * (W : ℤ)) % W := h1.symm
      _ = (qx + qy * (W : ℤ)) % W := by rw [show px + py * (W : ℤ) = qx + qy * W by omega]
      _ = qx := h2
  have hy : py = qy := by
    have hmul : py * (W : ℤ) = qy * W := by omega
    have hWne : (W : ℤ) ≠ 0 := by omega
    exact mul_right_cancel₀ hWne hmul
  rw [hx, hy]

/-- The canvas encoding of a pair of natural coordinates. -/
lemma pixIdx_natCast (W : ℕ) (x y : ℕ) :
    pixIdx W ((x : ℤ), (y : ℤ)) = y * W + x := by
  unfold pixIdx
  simp only
  rw [show ((y : ℤ) * (W : ℕ) + (x : ℕ)) = ((y * W + x : ℕ) : ℤ) by push_cast; ring]
  exact Int.toNat_natCast _

/-- Index-conditional writes folded over a list: the final entry at j is v
exactly when some listed element writing index j passes the filter. -/
lemma foldl_set_if_spec {α : Type} (enc : α → ℕ) (P : α → Bool) (v : ℕ) :
    ∀ (l : List α) (m0 : List ℕ),
      ((l.foldl (fun m c => if P c then m.set (enc c) v else m) m0).length = m0.length
      ∧ ∀ j, j < m0.length →
        (l.foldl (fun m c => if P c then m.set (enc c) v else m) m0).getD j 0 =
          if ∃ c ∈ l, enc c = j ∧ P c then v else m0.getD j 0) := by
  intro l
  induction l with
  | nil =>
    intro m0
    refine ⟨rfl, fun j hj => ?_⟩
    simp only [List.foldl_nil]
    rw [if_neg]
    rintro ⟨c, hc, -⟩
    exact List.not_mem_nil c hc
  | cons c t ihl =>
    intro m0
    simp only [List.foldl_cons]
    by_cases hP : P c = true
    · rw [if_pos hP]
      obtain ⟨ihlen, ihval⟩ := ihl (m0.set (enc c) v)
      refine ⟨by rw [ihlen, List.length_set], fun j hj => ?_⟩
      rw [ihval j (by rw [List.length_set]; exact hj)]
      by_cases ht : ∃ d ∈ t, enc d = j ∧ P d
      · rw [if_pos ht]
        obtain ⟨d, hd, hdj, hdP⟩ := ht
        rw [if_pos (show ∃ d ∈ c :: t, enc d = j ∧ P d from
          ⟨d, List.mem_cons_of_mem c hd, hdj, hdP⟩)]
      · rw [if_neg ht]
        by_cases hcj : enc c = j
        · rw [if_pos (show ∃ d ∈ c :: t, enc d = j ∧ P d from
            ⟨c, List.mem_cons_self c t, hcj, hP⟩), ← hcj,
            getD_set_self _ _ _ (hcj ▸ hj)]
        · rw [if_neg, getD_set_ne _ _ _ _ hcj]
          rintro ⟨d, hd, hdj, hdP⟩
          rcases List.mem_cons.mp hd with rfl | hd'
          · exact hcj hdj
          · exact ht ⟨d, hd', hdj, hdP⟩
    · rw [if_neg hP]
      obtain ⟨ihlen, ihval⟩ := ihl m0
      refine ⟨ihlen, fun j hj => ?_⟩
      rw [ihval j hj]
      by_cases ht : ∃ d ∈ t, enc d = j ∧ P d
      · rw [if_pos ht]
        obtain ⟨d, hd, hdj, hdP⟩ := ht
        rw [if_pos (show ∃ d ∈ c :: t, enc d = j ∧ P d from
          ⟨d, List.mem_cons_of_mem c hd, hdj, hdP⟩)]
      · rw [if_neg ht, if_neg]
        rintro ⟨d, hd, hdj, hdP⟩
        rcases List.mem_cons.mp hd with rfl | hd'
        · exact hP hdP
        · exact ht ⟨d, hd', hdj, hdP⟩

/-- Unconditional writes folded over a list (the createRect loop). -/
lemma foldl_set_spec {α : Type} (enc : α → ℕ) (v : ℕ) :
    ∀ (l : List α) (m0 : List ℕ),
      ((l.foldl (fun m c => m.set (enc c) v) m0).length = m0.length
      ∧ ∀ j, j < m0.length →
        (l.foldl (fun m c => m.set (enc c) v) m0).getD j 0 =
          if ∃ c ∈ l, enc c = j then v else m0.getD j 0) := by
  intro l
  induction l with
  | nil =>
    intro m0
    refine ⟨rfl, fun j hj => ?_⟩
    simp only [List.foldl_nil]
    rw [if_neg]
    rintro ⟨c, hc, -⟩
    exact List.not_mem_nil c hc
  | cons c t ihl =>
    intro m0
    simp only [List.foldl_cons]
    obtain ⟨ihlen, ihval⟩ := ihl (m0.set (enc c) v)
    refine ⟨by rw [ihlen, List.length_set], fun j hj => ?_⟩
    rw [ihval j (by rw [List.length_set]; exact hj)]
    by_cases ht : ∃ d ∈ t, enc d = j
    · rw [if_pos ht]
      obtain ⟨d, hd, hdj⟩ := ht
      rw [if_pos (show ∃ d ∈ c :: t, enc d = j from
        ⟨d, List.mem_cons_of_mem c hd, hdj⟩)]
    · rw [if_neg ht]
      by_cases hcj : enc c = j
      · rw [if_pos (show ∃ d ∈ c :: t, enc d = j from
          ⟨c, List.mem_cons_self c t, hcj⟩), ← hcj,
          getD_set_self _ _ _ (hcj ▸ hj)]
      · rw [if_neg, getD_set_ne _ _ _ _ hcj]
        rintro ⟨d, hd, hdj⟩
        rcases List.mem_cons.mp hd with rfl | hd'
        · exact hcj hdj
        · exact ht ⟨d, hd', hdj⟩

/-- The sampled seed red channel (startR in Utils.magicWandSelect). -/
def wandSeedR (img : ImageData) (startX startY : ℤ) : ℕ :=
  img.data.getD ((startY * img.width + startX).toNat * 4) 0

/-- The sampled seed green channel. -/
def wandSeedG (img : ImageData) (startX startY : ℤ) : ℕ :=
  img.data.getD ((startY * img.width + startX).toNat * 4 + 1) 0

/-- The sampled seed blue channel. -/
def wandSeedB (img : ImageData) (startX startY : ℤ) : ℕ :=
  img.data.getD ((startY * img.width + startX).toNat * 4 + 2) 0

lemma magicWand_getD_spec
    (img : ImageData) (startX startY : ℤ) (tol : ℕ) (x y : ℕ)
    (hlen : img.data.length = 4 * (img.width * img.height))
    (hx : x < img.width) (hy : y < img.height)
    (hseed : inB img.width img.height (startX, startY)) :
    (((magicWandSelect img startX startY tol true).getD (y * img.width + x) 0 = 255
      ↔ Reach img.width img.height
            (wandGood img.width img.data (wandSeedR img startX startY)
              (wandSeedG img startX startY) (wandSeedB img startX startY) tol)
            (startX, startY) ((x : ℤ), (y : ℤ)))
      ∧ ((magicWandSelect img startX startY tol true).getD (y * img.width + x) 0 = 255
        ∨ (magicWandSelect img startX startY tol true).getD (y * img.width + x) 0 = 0))
    ∧ ((magicWandSelect img startX startY tol false).getD (y * img.width + x) 0
      = if wandMatch img.data (wandSeedR img startX startY)
            (wandSeedG img startX startY) (wandSeedB img startX startY) tol
            ((y * img.width + x) * 4)
        then 255 else 0)
    ∧ (wandMatch img.data (wandSeedR img startX startY)
          (wandSeedG img startX startY) (wandSeedB img startX startY) tol
          ((y * img.width + x) * 4) = true
        ↔ (chanDiff (img.data.getD ((y * img.width + x) * 4) 0)
              (wandSeedR img startX startY) ≤ tol
          ∧ chanDiff (img.data.getD ((y * img.width + x) * 4 + 1) 0)
              (wandSeedG img startX startY) ≤ tol
          ∧ chanDiff (img.data.getD ((y * img.width + x) * 4 + 2) 0)
              (wandSeedB img startX startY) ≤ tol)) := by
  have hWH : img.height * img.width = img.width * img.height := Nat.mul_comm _ _
  have hj : y * img.width + x < img.width * img.height := by
    have h1 : y * img.width + x < (y + 1) * img.width := by
      have : (y + 1) * img.width = y * img.width + img.width := by ring
      omega
    have h3 : (y + 1) * img.width ≤ img.height * img.width :=
      Nat.mul_le_mul_right img.width (by omega)
    omega
  refine ⟨?_, ?_, ?_⟩
  · have hdef : magicWandSelect img startX startY tol true =
        wandLoop img.width img.height img.data (wandSeedR img startX startY)
          (wandSeedG img startX startY) (wandSeedB img startX startY) tol
          [(startX, startY)] ∅
          (List.replicate (img.width * img.height) 0) := rfl
    rw [hdef]
    have hspec := (wandLoop_spec img.width img.height img.data
        (wandSeedR img startX startY) (wandSeedG img startX startY)
        (wandSeedB img startX startY) tol
        (floodMeasure img.width img.height ∅ [(startX, startY)])
        [(startX, startY)] ∅ (List.replicate (img.width * img.height) 0)
        le_rfl).2 (y * img.width + x) (by simpa using hj)
    rw [hspec]
    have hcond : (∃ p ∈ floodVisit img.width img.height
          (wandGood img.width img.data (wandSeedR img startX startY)
            (wandSeedG img startX startY) (wandSeedB img startX startY) tol)
          [(startX, startY)] ∅,
          p ∉ (∅ : Finset (ℤ × ℤ)) ∧ pixIdx img.width p = y * img.width + x)
        ↔ Reach img.width img.height
            (wandGood img.width img.data (wandSeedR img startX startY)
              (wandSeedG img startX startY) (wandSeedB img startX startY) tol)
            (startX, startY) ((x : ℤ), (y : ℤ)) := by
      constructor
      · rintro ⟨p, hpFV, -, hpj⟩
        have hr := (floodVisit_eq_reach img.width img.height _ (startX, startY) p).mp hpFV
        have hpin := reach_inB hr
        have hxyin : inB img.width img.height ((x : ℤ), (y : ℤ)) := by
          unfold inB
          simp only
          omega
        have hpe : p = ((x : ℤ), (y : ℤ)) :=
          pixIdx_inj img.width img.height p _ hpin hxyin
            (by rw [hpj, pixIdx_natCast])
        rwa [hpe] at hr
      · intro hr
        exact ⟨((x : ℤ), (y : ℤ)),
          (floodVisit_eq_reach img.width img.height _ _ _).mpr hr,
          Finset.not_mem_empty _, pixIdx_natCast img.width x y⟩
    have h0 : (List.replicate (img.width * img.height) 0).getD (y * img.width + x) 0 = 0 := by
      simp [List.getD_eq_getElem?_getD, hj]
    rw [h0]
    by_cases hex : ∃ p ∈ floodVisit img.width img.height
        (wandGood img.width img.data (wandSeedR img startX startY)
          (wandSeedG img startX startY) (wandSeedB img startX startY) tol)
        [(startX, startY)] ∅,
        p ∉ (∅ : Finset (ℤ × ℤ)) ∧ pixIdx img.width p = y * img.width + x
    · rw [if_pos hex]
      exact ⟨⟨fun _ => hcond.mp hex, fun _ => rfl⟩, Or.inl rfl⟩
    · rw [if_neg hex]
      exact ⟨⟨fun h255 => absurd h255 (by decide),
        fun hr => absurd (hcond.mpr hr) hex⟩, Or.inr rfl⟩
  · have hdef2 : magicWandSelect img startX startY tol false =
        (List.range (img.width * img.height)).foldl
          (fun m i => if wandMatch img.data (wandSeedR img startX startY)
              (wandSeedG img startX startY) (wandSeedB img startX startY) tol (i * 4)
            then m.set i 255 else m)
          (List.replicate (img.width * img.height) 0) := rfl
    rw [hdef2]
    have hspec2 := (foldl_set_if_spec (fun i => i)
        (fun i => wandMatch img.data (wandSeedR img startX startY)
          (wandSeedG img startX startY) (wandSeedB img startX startY) tol (i * 4)) 255
        (List.range (img.width * img.height))
        (List.replicate (img.width * img.height) 0)).2
        (y * img.width + x) (by simpa using hj)
    rw [hspec2]
    have hcond2 : (∃ c ∈ List.range (img.width * img.height),
          c = y * img.width + x
          ∧ wandMatch img.data (wandSeedR img startX startY)
              (wandSeedG img startX startY) (wandSeedB img startX startY) tol (c * 4)
              = true)
        ↔ wandMatch img.data (wandSeedR img startX startY)
            (wandSeedG img startX startY) (wandSeedB img startX startY) tol
            ((y * img.width + x) * 4) = true := by
      constructor
      · rintro ⟨c, -, rfl, hP⟩
        exact hP
      · intro hP
        exact ⟨y * img.width + x, List.mem_range.mpr hj, rfl, hP⟩
    by_cases hm : wandMatch img.data (wandSeedR img startX startY)
        (wandSeedG img startX startY) (wandSeedB img startX startY) tol
        ((y * img.width + x) * 4) = true
    · rw [if_pos (hcond2.mpr hm), if_pos hm]
    · rw [if_neg (fun hc => hm (hcond2.mp hc)), if_neg hm]
      simp [List.getD_eq_getElem?_getD, hj]
  · simp only [wandMatch, Bool.and_eq_true, decide_eq_true_eq]
    tauto

/-- C6: magicWandSelect marks pixel (x, y) in contiguous mode exactly when
(x, y) lies in the 4-connected region of seed-matching pixels reachable
from the seed, and in non-contiguous mode exactly when (x, y) matches the
seed color, where matching means every R/G/B channel-wise absolute
difference from the seed pixel's sampled color is at most the tolerance
(last conjunct).  The tolerance-0 solid-region behaviour of the claim is
the instance of this characterization at tol = 0. -/
theorem C6_magic_wand_select_characterization
    (img : ImageData) (startX startY : ℤ) (tol : ℕ) (x y : ℕ)
    (hlen : img.data.length = 4 * (img.width * img.height))
    (hx : x < img.width) (hy : y < img.height)
    (hseed : inB img.width img.height (startX, startY)) :
    (((magicWandSelect img startX startY tol true).getD (y * img.width + x) 0 = 255
      ↔ Reach img.width img.height
            (wandGood img.width img.data (wandSeedR img startX startY)
              (wandSeedG img startX startY) (wandSeedB img startX startY) tol)
            (startX, startY) ((x : ℤ), (y : ℤ)))
      ∧ ((magicWandSelect img startX startY tol true).getD (y * img.width + x) 0 = 255
        ∨ (magicWandSelect img startX startY tol true).getD (y * img.width + x) 0 = 0))
    ∧ ((magicWandSelect img startX startY tol false).getD (y * img.width + x) 0
      = if wandMatch img.data (wandSeedR img startX startY)
            (wandSeedG img startX startY) (wandSeedB img startX startY) tol
            ((y * img.width + x) * 4)
        then 255 else 0)
    ∧ (wandMatch img.data (wandSeedR img startX startY)
          (wandSeedG img startX startY) (wandSeedB img startX startY) tol
          ((y * img.width + x) * 4) = true
        ↔ (chanDiff (img.data.getD ((y * img.width + x) * 4) 0)
              (wandSeedR img startX startY) ≤ tol
          ∧ chanDiff (img.data.getD ((y * img.width + x) * 4 + 1) 0)
              (wandSeedG img startX startY) ≤ tol
          ∧ chanDiff (img.data.getD ((y * img.width + x) * 4 + 2) 0)
              (wandSeedB img startX startY) ≤ tol)) :=
  magicWand_getD_spec img startX startY tol x y hlen hx hy hseed

/-- Witness for C6 at a concrete 2x1 image. -/
theorem C6_magic_wand_select_characterization_witness :
    (ImageData.mk 2 1 [1, 2, 3, 255, 9, 9, 9, 255]).data.length
        = 4 * ((ImageData.mk 2 1 [1, 2, 3, 255, 9, 9, 9, 255]).width
            * (ImageData.mk 2 1 [1, 2, 3, 255, 9, 9, 9, 255]).height)
    ∧ inB 2 1 ((0 : ℤ), (0 : ℤ))
    ∧ ((magicWandSelect (ImageData.mk 2 1 [1, 2, 3, 255, 9, 9, 9, 255]) 0 0 0 false).getD
          (0 * 2 + 1) 0
        = if wandMatch [1, 2, 3, 255, 9, 9, 9, 255]
              (wandSeedR (ImageData.mk 2 1 [1, 2, 3, 255, 9, 9, 9, 255]) 0 0)
              (wandSeedG (ImageData.mk 2 1 [1, 2, 3, 255, 9, 9, 9, 255]) 0 0)
              (wandSeedB (ImageData.mk 2 1 [1, 2, 3, 255, 9, 9, 9, 255]) 0 0) 0
              ((0 * 2 + 1) * 4)
          then 255 else 0) := by
  have h := C6_magic_wand_select_characterization
    (ImageData.mk 2 1 [1, 2, 3, 255, 9, 9, 9, 255]) 0 0 0 1 0
    (by decide) (by decide) (by decide) (by decide)
  exact ⟨by decide, by decide, h.2.1⟩

/-! ## Utils.floodFill -/

/-- The colorMatch closure of Utils.floodFill: all four R/G/B/A channel
deltas within tolerance.  It reads the pixel buffer passed to it — in the
source that buffer is being overwritten by the fill as the loop runs. -/
def fillMatch (pixels : List ℕ) (sR sG sB sA tol : ℕ) (idx : ℕ) : Bool :=
  decide (chanDiff (pixels.getD idx 0) sR ≤ tol)
    && decide (chanDiff (pixels.getD (idx + 1) 0) sG ≤ tol)
    && decide (chanDiff (pixels.getD (idx + 2) 0) sB ≤ tol)
    && decide (chanDiff (pixels.getD (idx + 3) 0) sA ≤ tol)

/-- The coordinate match predicate against a fixed buffer. -/
def fillGood (W : ℕ) (pixels : List ℕ) (sR sG sB sA tol : ℕ) : ℤ × ℤ → Bool :=
  fun p => fillMatch pixels sR sG sB sA tol (pixIdx W p * 4)

/-- Channel c of the fill color, as written at offset c of a pixel. -/
def fillChan (fc : Color) (c : ℕ) : ℕ := [fc.r, fc.g, fc.b, fc.a].getD c 0

/-- The stack loop of Utils.floodFill: identical traversal to the wand,
but the match test reads the buffer being written, and a matching pixel
gets the four fill-color channels stored. -/
def fillLoop (W H : ℕ) (fc : Color) (sR sG sB sA tol : ℕ) :
    List (ℤ × ℤ) → Finset (ℤ × ℤ) → List ℕ → List ℕ
  | [], _, pixels => pixels
  | p :: rest, visited, pixels =>
    if p.1 < 0 ∨ p.1 ≥ (W : ℤ) ∨ p.2 < 0 ∨ p.2 ≥ (H : ℤ) then
      fillLoop W H fc sR sG sB sA tol rest visited pixels
    else if p ∈ visited then fillLoop W H fc sR sG sB sA tol rest visited pixels
    else if ¬ fillMatch pixels sR sG sB sA tol (pixIdx W p * 4) then
      fillLoop W H fc sR sG sB sA tol rest visited pixels
    else
      fillLoop W H fc sR sG sB sA tol
        ((p.1, p.2 - 1) :: (p.1, p.2 + 1) :: (p.1 - 1, p.2) :: (p.1 + 1, p.2) :: rest)
        (insert p visited)
        ((((pixels.set (pixIdx W p * 4) fc.r).set (pixIdx W p * 4 + 1) fc.g).set
            (pixIdx W p * 4 + 2) fc.b).set (pixIdx W p * 4 + 3) fc.a)
termination_by stack visited => floodMeasure W H visited stack
decreasing_by
  · exact floodMeasure_lt_skip W H visited p rest
  · exact floodMeasure_lt_skip W H visited p rest
  · exact floodMeasure_lt_skip W H visited p rest
  · exact floodMeasure_lt_process W H visited p _ _ _ _ rest
      (by unfold inB; omega) (by assumption)

/-- The same loop instrumented with the list of cells written, in
processing order, to state the write-exactly-once property. -/
def fillTrace (W H : ℕ) (fc : Color) (sR sG sB sA tol : ℕ) :
    List (ℤ × ℤ) → Finset (ℤ × ℤ) → List ℕ → List ℕ × List (ℤ × ℤ)
  | [], _, pixels => (pixels, [])
  | p :: rest, visited, pixels =>
    if p.1 < 0 ∨ p.1 ≥ (W : ℤ) ∨ p.2 < 0 ∨ p.2 ≥ (H : ℤ) then
      fillTrace W H fc sR sG sB sA tol rest visited pixels
    else if p ∈ visited then fillTrace W H fc sR sG sB sA tol rest visited pixels
    else if ¬ fillMatch pixels sR sG sB sA tol (pixIdx W p * 4) then
      fillTrace W H fc sR sG sB sA tol rest visited pixels
    else
      let r := fillTrace W H fc sR sG sB sA tol
        ((p.1, p.2 - 1) :: (p.1, p.2 + 1) :: (p.1 - 1, p.2) :: (p.1 + 1, p.2) :: rest)
        (insert p visited)
        ((((pixels.set (pixIdx W p * 4) fc.r).set (pixIdx W p * 4 + 1) fc.g).set
            (pixIdx W p * 4 + 2) fc.b).set (pixIdx W p * 4 + 3) fc.a)
      (r.1, p :: r.2)
termination_by stack visited => floodMeasure W H visited stack
decreasing_by
  · exact floodMeasure_lt_skip W H visited p rest
  · exact floodMeasure_lt_skip W H visited p rest
  · exact floodMeasure_lt_skip W H visited p rest
  · exact floodMeasure_lt_process W H visited p _ _ _ _ rest
      (by unfold inB; omega) (by assumption)

/-- Utils.floodFill: capture the seed color once, before any write, then
run the stack loop. -/
def floodFill (imageData : ImageData) (startX startY : ℤ) (fillColor : Color)
    (tolerance : ℕ) : ImageData :=
  let W := imageData.width
  let H := imageData.height
  let pixels := imageData.data
  let startIdx := (startY * W + startX).toNat * 4
  let sR := pixels.getD startIdx 0
  let sG := pixels.getD (startIdx + 1) 0
  let sB := pixels.getD (startIdx + 2) 0
  let sA := pixels.getD (startIdx + 3) 0
  { imageData with
    data := fillLoop W H fillColor sR sG sB sA tolerance [(startX, startY)] ∅ pixels }

lemma fillLoop_nil (W H : ℕ) (fc : Color) (sR sG sB sA tol : ℕ)
    (visited : Finset (ℤ × ℤ)) (pixels : List ℕ) :
    fillLoop W H fc sR sG sB sA tol [] visited pixels = pixels := by
  rw [fillLoop]

lemma fillLoop_oob (W H : ℕ) (fc : Color) (sR sG sB sA tol : ℕ)
    (p : ℤ × ℤ) (rest : List (ℤ × ℤ)) (visited : Finset (ℤ × ℤ)) (pixels : List ℕ)
    (h : ¬ inB W H p) :
    fillLoop W H fc sR sG sB sA tol (p :: rest) visited pixels =
      fillLoop W H fc sR sG sB sA tol rest visited pixels := by
  rw [fillLoop]
  rw [if_pos (by unfold inB at h; omega)]

lemma fillLoop_visited (W H : ℕ) (fc : Color) (sR sG sB sA tol : ℕ)
    (p : ℤ × ℤ) (rest : List (ℤ × ℤ)) (visited : Finset (ℤ × ℤ)) (pixels : List ℕ)
    (hin : inB W H p) (h : p ∈ visited) :
    fillLoop W H fc sR sG sB sA tol (p :: rest) visited pixels =
      fillLoop W H fc sR sG sB sA tol rest visited pixels := by
  rw [fillLoop]
  rw [if_neg (by unfold inB at hin; omega), if_pos h]

lemma fillLoop_bad (W H : ℕ) (fc : Color) (sR sG sB sA tol : ℕ)
    (p : ℤ × ℤ) (rest : List (ℤ × ℤ)) (visited : Finset (ℤ × ℤ)) (pixels : List ℕ)
    (hin : inB W H p) (hnv : p ∉ visited)
    (h : ¬ fillMatch pixels sR sG sB sA tol (pixIdx W p * 4)) :
    fillLoop W H fc sR sG sB sA tol (p :: rest) visited pixels =
      fillLoop W H fc sR sG sB sA tol rest visited pixels := by
  rw [fillLoop]
  rw [if_neg (by unfold inB at hin; omega), if_neg hnv, if_pos h]

lemma fillLoop_process (W H : ℕ) (fc : Color) (sR sG sB sA tol : ℕ)
    (p : ℤ × ℤ) (rest : List (ℤ × ℤ)) (visited : Finset (ℤ × ℤ)) (pixels : List ℕ)
    (hin : inB W H p) (hnv : p ∉ visited)
    (h : fillMatch pixels sR sG sB sA tol (pixIdx W p * 4)) :
    fillLoop W H fc sR sG sB sA tol (p :: rest) visited pixels =
      fillLoop W H fc sR sG sB sA tol
        ((p.1, p.2 - 1) :: (p.1, p.2 + 1) :: (p.1 - 1, p.2) :: (p.1 + 1, p.2) :: rest)
        (insert p visited)
        ((((pixels.set (pixIdx W p * 4) fc.r).set (pixIdx W p * 4 + 1) fc.g).set
            (pixIdx W p * 4 + 2) fc.b).set (pixIdx W p * 4 + 3) fc.a) := by
  rw [fillLoop]
  rw [if_neg (by unfold inB at hin; omega), if_neg hnv, if_neg (by simp [h])]

lemma fillTrace_nil (W H : ℕ) (fc : Color) (sR sG sB sA tol : ℕ)
    (visited : Finset (ℤ × ℤ)) (pixels : List ℕ) :
    fillTrace W H fc sR sG sB sA tol [] visited pixels = (pixels, []) := by
  rw [fillTrace]

lemma fillTrace_oob (W H : ℕ) (fc : Color) (sR sG sB sA tol : ℕ)
    (p : ℤ × ℤ) (rest : List (ℤ × ℤ)) (visited : Finset (ℤ × ℤ)) (pixels : List ℕ)
    (h : ¬ inB W H p) :
    fillTrace W H fc sR sG sB sA tol (p :: rest) visited pixels =
      fillTrace W H fc sR sG sB sA tol rest visited pixels := by
  rw [fillTrace]
  rw [if_pos (by unfold inB at h; omega)]

lemma fillTrace_visited (W H : ℕ) (fc : Color) (sR sG sB sA tol : ℕ)
    (p : ℤ × ℤ) (rest : List (ℤ × ℤ)) (visited : Finset (ℤ × ℤ)) (pixels : List ℕ)
    (hin : inB W H p) (h : p ∈ visited) :
    fillTrace W H fc sR sG sB sA tol (p :: rest) visited pixels =
      fillTrace W H fc sR sG sB sA tol rest visited pixels := by
  rw [fillTrace]
  rw [if_neg (by unfold inB at hin; omega), if_pos h]

lemma fillTrace_bad (W H : ℕ) (fc : Color) (sR sG sB sA tol : ℕ)
    (p : ℤ × ℤ) (rest : List (ℤ × ℤ)) (visited : Finset (ℤ × ℤ)) (pixels : List ℕ)
    (hin : inB W H p) (hnv : p ∉ visited)
    (h : ¬ fillMatch pixels sR sG sB sA tol (pixIdx W p * 4)) :
    fillTrace W H fc sR sG sB sA tol (p :: rest) visited pixels =
      fillTrace W H fc sR sG sB sA tol rest visited pixels := by
  rw [fillTrace]
  rw [if_neg (by unfold inB at hin; omega), if_neg hnv, if_pos h]

lemma fillTrace_process (W H : ℕ) (fc : Color) (sR sG sB sA tol : ℕ)
    (p : ℤ × ℤ) (rest : List (ℤ × ℤ)) (visited : Finset (ℤ × ℤ)) (pixels : List ℕ)
    (hin : inB W H p) (hnv : p ∉ visited)
    (h : fillMatch pixels sR sG sB sA tol (pixIdx W p * 4)) :
    fillTrace W H fc sR sG sB sA tol (p :: rest) visited pixels =
      ((fillTrace W H fc sR sG sB sA tol
        ((p.1, p.2 - 1) :: (p.1, p.2 + 1) :: (p.1 - 1, p.2) :: (p.1 + 1, p.2) :: rest)
        (insert p visited)
        ((((pixels.set (pixIdx W p * 4) fc.r).set (pixIdx W p * 4 + 1) fc.g).set
            (pixIdx W p * 4 + 2) fc.b).set (pixIdx W p * 4 + 3) fc.a)).1,
       p :: (fillTrace W H fc sR sG sB sA tol
        ((p.1, p.2 - 1) :: (p.1, p.2 + 1) :: (p.1 - 1, p.2) :: (p.1 + 1, p.2) :: rest)
        (insert p visited)
        ((((pixels.set (pixIdx W p * 4) fc.r).set (pixIdx W p * 4 + 1) fc.g).set
            (pixIdx W p * 4 + 2) fc.b).set (pixIdx W p * 4 + 3) fc.a)).2) := by
  rw [fillTrace]
  rw [if_neg (by unfold inB at hin; omega), if_neg hnv, if_neg (by simp [h])]

/-- The instrumented loop computes the same buffer as the real one. -/
lemma fillTrace_fst (W H : ℕ) (fc : Color) (sR sG sB sA tol : ℕ) :
    ∀ n (stack : List (ℤ × ℤ)) (visited : Finset (ℤ × ℤ)) (pixels : List ℕ),
      floodMeasure W H visited stack ≤ n →
      (fillTrace W H fc sR sG sB sA tol stack visited pixels).1 =
        fillLoop W H fc sR sG sB sA tol stack visited pixels := by
  intro n
  induction n using Nat.strong_induction_on with
  | _ n ih =>
    intro stack visited pixels hm
    match stack with
    | [] => rw [fillTrace_nil, fillLoop_nil]
    | p :: rest =>
      by_cases hin : inB W H p
      · by_cases hv : p ∈ visited
        · rw [fillTrace_visited W H fc sR sG sB sA tol p rest visited pixels hin hv,
            fillLoop_visited W H fc sR sG sB sA tol p rest visited pixels hin hv]
          exact ih _ (lt_of_lt_of_le (floodMeasure_lt_skip W H visited p rest) hm)
            rest visited pixels le_rfl
        · by_cases hg : fillMatch pixels sR sG sB sA tol (pixIdx W p * 4)
          · rw [fillTrace_process W H fc sR sG sB sA tol p rest visited pixels hin hv hg,
              fillLoop_process W H fc sR sG sB sA tol p rest visited pixels hin hv hg]
            exact ih (floodMeasure W H (insert p visited)
                ((p.1, p.2 - 1) :: (p.1, p.2 + 1) :: (p.1 - 1, p.2) :: (p.1 + 1, p.2) :: rest))
              (lt_of_lt_of_le
                (floodMeasure_lt_process W H visited p _ _ _ _ rest hin hv) hm)
              _ _ _ le_rfl
          · rw [fillTrace_bad W H fc sR sG sB sA tol p rest visited pixels hin hv hg,
              fillLoop_bad W H fc sR sG sB sA tol p rest visited pixels hin hv hg]
            exact ih _ (lt_of_lt_of_le (floodMeasure_lt_skip W H visited p rest) hm)
              rest visited pixels le_rfl
      · rw [fillTrace_oob W H fc sR sG sB sA tol p rest visited pixels hin,
          fillLoop_oob W H fc sR sG sB sA tol p rest visited pixels hin]
        exact ih _ (lt_of_lt_of_le (floodMeasure_lt_skip W H visited p rest) hm)
          rest visited pixels le_rfl

lemma quad_set_getD (pixels : List ℕ) (idx r g b a c : ℕ) (hc : c < 4)
    (hlen : idx + c < pixels.length) :
    ((((pixels.set idx r).set (idx + 1) g).set (idx + 2) b).set (idx + 3) a).getD
        (idx + c) 0 = [r, g, b, a].getD c 0 := by
  interval_cases c
  · have h3 : idx + 3 ≠ idx := by omega
    have h2 : idx + 2 ≠ idx := by omega
    have h1 : idx + 1 ≠ idx := by omega
    simp only [Nat.add_zero]
    rw [getD_set_ne _ _ _ _ h3, getD_set_ne _ _ _ _ h2,
      getD_set_ne _ _ _ _ h1, getD_set_self pixels idx r (by omega)]
    rfl
  · have h3 : idx + 3 ≠ idx + 1 := by omega
    have h2 : idx + 2 ≠ idx + 1 := by omega
    rw [getD_set_ne _ _ _ _ h3, getD_set_ne _ _ _ _ h2,
      getD_set_self (pixels.set idx r) (idx + 1) g (by rw [List.length_set]; omega)]
    rfl
  · have h3 : idx + 3 ≠ idx + 2 := by omega
    rw [getD_set_ne _ _ _ _ h3,
      getD_set_self ((pixels.set idx r).set (idx + 1) g) (idx + 2) b
        (by rw [List.length_set, List.length_set]; omega)]
    rfl
  · rw [getD_set_self (((pixels.set idx r).set (idx + 1) g).set (idx + 2) b)
        (idx + 3) a
        (by rw [List.length_set, List.length_set, List.length_set]; omega)]
    rfl

lemma quad_set_getD_ne (pixels : List ℕ) (idx r g b a j : ℕ)
    (h : ∀ c, c < 4 → idx + c ≠ j) :
    ((((pixels.set idx r).set (idx + 1) g).set (idx + 2) b).set (idx + 3) a).getD
        j 0 = pixels.getD j 0 := by
  rw [getD_set_ne _ _ _ _ (h 3 (by omega)), getD_set_ne _ _ _ _ (h 2 (by omega)),
    getD_set_ne _ _ _ _ (h 1 (by omega)),
    getD_set_ne _ _ _ _ (by have := h 0 (by omega); omega)]

/-- The flood-fill loop relative to the pre-fill buffer orig: provided the
unvisited pixels of the working buffer still hold their original values,
the loop (a) writes the fill color channel-wise exactly on the cells the
fixed original-color traversal visits, leaving every other entry unchanged,
and (b) its write log lists each newly visited cell exactly once. -/
lemma fillTrace_spec (W H : ℕ) (fc : Color) (sR sG sB sA tol : ℕ) (orig : List ℕ) :
    ∀ n (stack : List (ℤ × ℤ)) (visited : Finset (ℤ × ℤ)) (pixels : List ℕ),
      floodMeasure W H visited stack ≤ n →
      (∀ p : ℤ × ℤ, inB W H p → p ∉ visited → ∀ c, c < 4 →
        pixels.getD (pixIdx W p * 4 + c) 0 = orig.getD (pixIdx W p * 4 + c) 0) →
      ((fillTrace W H fc sR sG sB sA tol stack visited pixels).1.length = pixels.length
      ∧ (∀ j, j < pixels.length →
          (fillTrace W H fc sR sG sB sA tol stack visited pixels).1.getD j 0 =
            if ∃ p ∈ floodVisit W H (fillGood W orig sR sG sB sA tol) stack visited,
                p ∉ visited ∧ ∃ c, c < 4 ∧ pixIdx W p * 4 + c = j
            then fillChan fc (j % 4) else pixels.getD j 0)
      ∧ (fillTrace W H fc sR sG sB sA tol stack visited pixels).2.Nodup
      ∧ (∀ p, p ∈ (fillTrace W H fc sR sG sB sA tol stack visited pixels).2 ↔
          (p ∈ floodVisit W H (fillGood W orig sR sG sB sA tol) stack visited
            ∧ p ∉ visited))) := by
  intro n
  induction n using Nat.strong_induction_on with
  | _ n ih =>
    intro stack visited pixels hm hAg
    match stack with
    | [] =>
      rw [fillTrace_nil, floodVisit_nil]
      refine ⟨rfl, fun j hj => ?_, List.nodup_nil, fun p => ?_⟩
      · rw [if_neg]
        rintro ⟨p, hp, hnp, -⟩
        exact hnp hp
      · simp only [List.not_mem_nil, false_iff, not_and]
        intro hp hnp
        exact hnp hp
    | p :: rest =>
      by_cases hin : inB W H p
      · by_cases hv : p ∈ visited
        · rw [fillTrace_visited W H fc sR sG sB sA tol p rest visited pixels hin hv,
            floodVisit_visited W H _ p rest visited hin hv]
          exact ih _ (lt_of_lt_of_le (floodMeasure_lt_skip W H visited p rest) hm)
            rest visited pixels le_rfl hAg
        · have hmatch : fillMatch pixels sR sG sB sA tol (pixIdx W p * 4)
              = fillMatch orig sR sG sB sA tol (pixIdx W p * 4) := by
            have e0 := hAg p hin hv 0 (by omega)
            have e1 := hAg p hin hv 1 (by omega)
            have e2 := hAg p hin hv 2 (by omega)
            have e3 := hAg p hin hv 3 (by omega)
            rw [Nat.add_zero] at e0
            unfold fillMatch
            rw [e0, e1, e2, e3]
          by_cases hg : fillMatch pixels sR sG sB sA tol (pixIdx W p * 4)
          · have hgO : fillGood W orig sR sG sB sA tol p = true := by
              unfold fillGood
              rw [← hmatch]
              exact hg
            rw [fillTrace_process W H fc sR sG sB sA tol p rest visited pixels hin hv hg,
              floodVisit_process W H _ p rest visited hin hv hgO]
            have hAg' : ∀ q : ℤ × ℤ, inB W H q → q ∉ insert p visited → ∀ c, c < 4 →
                ((((pixels.set (pixIdx W p * 4) fc.r).set (pixIdx W p * 4 + 1) fc.g).set
                  (pixIdx W p * 4 + 2) fc.b).set (pixIdx W p * 4 + 3) fc.a).getD
                    (pixIdx W q * 4 + c) 0 = orig.getD (pixIdx W q * 4 + c) 0 := by
              intro q hinq hq c hc
              have hqp : q ≠ p := fun he => hq (he ▸ Finset.mem_insert_self p visited)
              have hpixne : pixIdx W q ≠ pixIdx W p :=
                fun he => hqp (pixIdx_inj W H q p hinq hin he)
              rw [quad_set_getD_ne]
              · exact hAg q hinq (fun hqv => hq (Finset.mem_insert_of_mem hqv)) c hc
              · intro c' hc' he
                exact hpixne (by omega)
            have hrec := ih (floodMeasure W H (insert p visited)
                ((p.1, p.2 - 1) :: (p.1, p.2 + 1) :: (p.1 - 1, p.2) :: (p.1 + 1, p.2) :: rest))
              (lt_of_lt_of_le
                (floodMeasure_lt_process W H visited p _ _ _ _ rest hin hv) hm)
              ((p.1, p.2 - 1) :: (p.1, p.2 + 1) :: (p.1 - 1, p.2) :: (p.1 + 1, p.2) :: rest)
              (insert p visited)
              ((((pixels.set (pixIdx W p * 4) fc.r).set (pixIdx W p * 4 + 1) fc.g).set
                (pixIdx W p * 4 + 2) fc.b).set (pixIdx W p * 4 + 3) fc.a)
              le_rfl hAg'
            have hlen4 : ((((pixels.set (pixIdx W p * 4) fc.r).set
                (pixIdx W p * 4 + 1) fc.g).set
                (pixIdx W p * 4 + 2) fc.b).set (pixIdx W p * 4 + 3) fc.a).length
                = pixels.length := by
              simp [List.length_set]
            have hpFV' : p ∈ floodVisit W H (fillGood W orig sR sG sB sA tol)
                ((p.1, p.2 - 1) :: (p.1, p.2 + 1) :: (p.1 - 1, p.2) :: (p.1 + 1, p.2) :: rest)
                (insert p visited) :=
              floodVisit_subset W H _ _ _ (Finset.mem_insert_self p visited)
            refine ⟨by rw [hrec.1, hlen4], fun j hj => ?_, ?_, fun q => ?_⟩
            · rw [hrec.2.1 j (by rw [hlen4]; exact hj)]
              by_cases hex : ∃ q ∈ floodVisit W H (fillGood W orig sR sG sB sA tol)
                  ((p.1, p.2 - 1) :: (p.1, p.2 + 1) :: (p.1 - 1, p.2) :: (p.1 + 1, p.2) :: rest)
                  (insert p visited),
                  q ∉ insert p visited ∧ ∃ c, c < 4 ∧ pixIdx W q * 4 + c = j
              · rw [if_pos hex]
                obtain ⟨q, hqFV, hqnv, c, hc, hcj⟩ := hex
                rw [if_pos ⟨q, hqFV,
                  fun hqv => hqnv (Finset.mem_insert_of_mem hqv), c, hc, hcj⟩]
              · rw [if_neg hex]
                by_cases hjp : ∃ c, c < 4 ∧ pixIdx W p * 4 + c = j
                · obtain ⟨c, hc, hcj⟩ := hjp
                  rw [if_pos ⟨p, hpFV', hv, c, hc, hcj⟩]
                  have hmod : j % 4 = c := by omega
                  rw [← hcj, quad_set_getD pixels _ _ _ _ _ c hc (by omega)]
                  rw [hcj, hmod]
                  rfl
                · have hcond : ¬ ∃ q ∈ floodVisit W H (fillGood W orig sR sG sB sA tol)
                      ((p.1, p.2 - 1) :: (p.1, p.2 + 1) :: (p.1 - 1, p.2) ::
                        (p.1 + 1, p.2) :: rest) (insert p visited),
                      q ∉ visited ∧ ∃ c, c < 4 ∧ pixIdx W q * 4 + c = j := by
                    rintro ⟨q, hqFV, hqnv, c, hc, hcj⟩
                    by_cases hq' : q ∈ insert p visited
                    · rcases Finset.mem_insert.mp hq' with rfl | hqv
                      · exact hjp ⟨c, hc, hcj⟩
                      · exact hqnv hqv
                    · exact hex ⟨q, hqFV, hq', c, hc, hcj⟩
                  rw [if_neg hcond, quad_set_getD_ne]
                  intro c hc he
                  exact hjp ⟨c, hc, he⟩
            · rw [List.nodup_cons]
              refine ⟨fun hp => ?_, hrec.2.2.1⟩
              exact ((hrec.2.2.2 p).mp hp).2 (Finset.mem_insert_self p visited)
            · rw [List.mem_cons, hrec.2.2.2 q]
              constructor
              · rintro (rfl | ⟨hqFV, hqnv⟩)
                · exact ⟨hpFV', hv⟩
                · exact ⟨hqFV, fun hqv => hqnv (Finset.mem_insert_of_mem hqv)⟩
              · rintro ⟨hqFV, hqnv⟩
                by_cases hqp : q = p
                · exact Or.inl hqp
                · exact Or.inr ⟨hqFV, fun hq' =>
                    (Finset.mem_insert.mp hq').elim hqp hqnv⟩
          · have hgO : ¬ fillGood W orig sR sG sB sA tol p = true := by
              unfold fillGood
              rw [← hmatch]
              exact hg
            rw [fillTrace_bad W H fc sR sG sB sA tol p rest visited pixels hin hv hg,
              floodVisit_bad W H _ p rest visited hin hv hgO]
            exact ih _ (lt_of_lt_of_le (floodMeasure_lt_skip W H visited p rest) hm)
              rest visited pixels le_rfl hAg
      · rw [fillTrace_oob W H fc sR sG sB sA tol p rest visited pixels hin,
          floodVisit_oob W H _ p rest visited hin]
        exact ih _ (lt_of_lt_of_le (floodMeasure_lt_skip W H visited p rest) hm)
          rest visited pixels le_rfl hAg

/-- The sampled seed alpha channel (startA in Utils.floodFill; the R/G/B
samples are the same reads as the wand's, see wandSeedR/G/B). -/
def fillSeedA (img : ImageData) (startX startY : ℤ) : ℕ :=
  img.data.getD ((startY * img.width + startX).toNat * 4 + 3) 0

/-- C7: floodFill writes the fill color channel-wise to exactly the pixels
of the 4-connected region that matches the seed's original color — the
match criterion is fixed by the pre-fill buffer (the seed color is captured
once before any write, and the loop only ever evaluates the match on
not-yet-written pixels), so overwriting pixels during the fill does not
change it — and leaves every other pixel unchanged; moreover the write
trace of the loop lists each region pixel exactly once (no repeated
processing), and the loop, defined by a decreasing visited-set measure,
terminates with that trace.  Reach is taken over fillGood of the original
buffer. -/
theorem C7_flood_fill_characterization
    (img : ImageData) (startX startY : ℤ) (fc : Color) (tol : ℕ)
    (hlen : img.data.length = 4 * (img.width * img.height))
    (hseed : inB img.width img.height (startX, startY)) :
    (∀ x y c : ℕ, x < img.width → y < img.height → c < 4 →
      (Reach img.width img.height
          (fillGood img.width img.data (wandSeedR img startX startY)
            (wandSeedG img startX startY) (wandSeedB img startX startY)
            (fillSeedA img startX startY) tol)
          (startX, startY) ((x : ℤ), (y : ℤ)) →
        (floodFill img startX startY fc tol).data.getD ((y * img.width + x) * 4 + c) 0
          = fillChan fc c)
      ∧ (¬ Reach img.width img.height
          (fillGood img.width img.data (wandSeedR img startX startY)
            (wandSeedG img startX startY) (wandSeedB img startX startY)
            (fillSeedA img startX startY) tol)
          (startX, startY) ((x : ℤ), (y : ℤ)) →
        (floodFill img startX startY fc tol).data.getD ((y * img.width + x) * 4 + c) 0
          = img.data.getD ((y * img.width + x) * 4 + c) 0))
    ∧ (fillTrace img.width img.height fc (wandSeedR img startX startY)
        (wandSeedG img startX startY) (wandSeedB img startX startY)
        (fillSeedA img startX startY) tol [(startX, startY)] ∅ img.data).1
        = (floodFill img startX startY fc tol).data
    ∧ (fillTrace img.width img.height fc (wandSeedR img startX startY)
        (wandSeedG img startX startY) (wandSeedB img startX startY)
        (fillSeedA img startX startY) tol [(startX, startY)] ∅ img.data).2.Nodup
    ∧ (∀ p, p ∈ (fillTrace img.width img.height fc (wandSeedR img startX startY)
        (wandSeedG img startX startY) (wandSeedB img startX startY)
        (fillSeedA img startX startY) tol [(startX, startY)] ∅ img.data).2
        ↔ Reach img.width img.height
            (fillGood img.width img.data (wandSeedR img startX startY)
              (wandSeedG img startX startY) (wandSeedB img startX startY)
              (fillSeedA img startX startY) tol)
            (startX, startY) p) := by
  have hdef : (floodFill img startX startY fc tol).data =
      fillLoop img.width img.height fc (wandSeedR img startX startY)
        (wandSeedG img startX startY) (wandSeedB img startX startY)
        (fillSeedA img startX startY) tol [(startX, startY)] ∅ img.data := rfl
  have hAg0 : ∀ p : ℤ × ℤ, inB img.width img.height p →
      p ∉ (∅ : Finset (ℤ × ℤ)) → ∀ c, c < 4 →
      img.data.getD (pixIdx img.width p * 4 + c) 0 =
        img.data.getD (pixIdx img.width p * 4 + c) 0 :=
    fun _ _ _ _ _ => rfl
  have hspec := fillTrace_spec img.width img.height fc (wandSeedR img startX startY)
    (wandSeedG img startX startY) (wandSeedB img startX startY)
    (fillSeedA img startX startY) tol img.data
    (floodMeasure img.width img.height ∅ [(startX, startY)])
    [(startX, startY)] ∅ img.data le_rfl hAg0
  have hproj := fillTrace_fst img.width img.height fc (wandSeedR img startX startY)
    (wandSeedG img startX startY) (wandSeedB img startX startY)
    (fillSeedA img startX startY) tol
    (floodMeasure img.width img.height ∅ [(startX, startY)])
    [(startX, startY)] ∅ img.data le_rfl
  refine ⟨?_, by rw [hproj, hdef], hspec.2.2.1, fun p => ?_⟩
  · intro x y c hx hy hc
    have hj0 : y * img.width + x < img.width * img.height := by
      have h1 : (y + 1) * img.width = y * img.width + img.width := by ring
      have h3 : (y + 1) * img.width ≤ img.height * img.width :=
        Nat.mul_le_mul_right img.width (by omega)
      have h4 : img.height * img.width = img.width * img.height := Nat.mul_comm _ _
      omega
    have hj : (y * img.width + x) * 4 + c < img.data.length := by omega
    have hval := hspec.2.1 ((y * img.width + x) * 4 + c) hj
    rw [hdef, ← hproj, hval]
    have hxyin : inB img.width img.height ((x : ℤ), (y : ℤ)) := by
      unfold inB
      simp only
      omega
    have hcond : (∃ q ∈ floodVisit img.width img.height
          (fillGood img.width img.data (wandSeedR img startX startY)
            (wandSeedG img startX startY) (wandSeedB img startX startY)
            (fillSeedA img startX startY) tol) [(startX, startY)] ∅,
          q ∉ (∅ : Finset (ℤ × ℤ))
          ∧ ∃ c', c' < 4 ∧ pixIdx img.width q * 4 + c' = (y * img.width + x) * 4 + c)
        ↔ Reach img.width img.height
            (fillGood img.width img.data (wandSeedR img startX startY)
              (wandSeedG img startX startY) (wandSeedB img startX startY)
              (fillSeedA img startX startY) tol)
            (startX, startY) ((x : ℤ), (y : ℤ)) := by
      constructor
      · rintro ⟨q, hqFV, -, c', hc', hcj⟩
        have hr := (floodVisit_eq_reach img.width img.height _ (startX, startY) q).mp hqFV
        have hqin := reach_inB hr
        have hqpix : pixIdx img.width q = y * img.width + x := by omega
        have hqe : q = ((x : ℤ), (y : ℤ)) :=
          pixIdx_inj img.width img.height q _ hqin hxyin
            (by rw [hqpix, pixIdx_natCast])
        rwa [hqe] at hr
      · intro hr
        exact ⟨((x : ℤ), (y : ℤ)),
          (floodVisit_eq_reach img.width img.height _ _ _).mpr hr,
          Finset.not_mem_empty _,
          c, hc, by rw [pixIdx_natCast]⟩
    have hmod : ((y * img.width + x) * 4 + c) % 4 = c := by omega
    constructor
    · intro hr
      rw [if_pos (hcond.mpr hr), hmod]
    · intro hr
      rw [if_neg (fun hcnd => hr (hcond.mp hcnd))]
  · rw [hspec.2.2.2 p]
    constructor
    · intro h
      exact (floodVisit_eq_reach img.width img.height _ (startX, startY) p).mp h.1
    · intro hr
      exact ⟨(floodVisit_eq_reach img.width img.height _ (startX, startY) p).mpr hr,
        Finset.not_mem_empty p⟩

/-- Witness for C7 at a concrete 2x1 image. -/
theorem C7_flood_fill_characterization_witness :
    (ImageData.mk 2 1 [1, 2, 3, 255, 9, 9, 9, 255]).data.length
        = 4 * ((ImageData.mk 2 1 [1, 2, 3, 255, 9, 9, 9, 255]).width
            * (ImageData.mk 2 1 [1, 2, 3, 255, 9, 9, 9, 255]).height)
    ∧ inB 2 1 ((0 : ℤ), (0 : ℤ))
    ∧ (fillTrace 2 1 (Color.mk 7 7 7 255)
        (wandSeedR (ImageData.mk 2 1 [1, 2, 3, 255, 9, 9, 9, 255]) 0 0)
        (wandSeedG (ImageData.mk 2 1 [1, 2, 3, 255, 9, 9, 9, 255]) 0 0)
        (wandSeedB (ImageData.mk 2 1 [1, 2, 3, 255, 9, 9, 9, 255]) 0 0)
        (fillSeedA (ImageData.mk 2 1 [1, 2, 3, 255, 9, 9, 9, 255]) 0 0) 0
        [((0 : ℤ), (0 : ℤ))] ∅
        (ImageData.mk 2 1 [1, 2, 3, 255, 9, 9, 9, 255]).data).2.Nodup := by
  have h := C7_flood_fill_characterization
    (ImageData.mk 2 1 [1, 2, 3, 255, 9, 9, 9, 255]) 0 0 (Color.mk 7 7 7 255) 0
    (by decide) (by decide)
  exact ⟨by decide, by decide, h.2.2.1⟩

/-! ## Selection.createMagicWand and tight bounds (C2) -/

/-- One step of the bounds scan in Selection.createMagicWand (which, unlike
updateBounds, tracks no hasSelection flag and instead tests maxX >= minX). -/
def wandScanStep (w : ℕ) (m : List ℕ) (acc : BoundsScan) (c : ℕ × ℕ) : BoundsScan :=
  if m.getD (c.2 * w + c.1) 0 > 0 then
    ⟨min acc.minX c.1, min acc.minY c.2, max acc.maxX c.1, max acc.maxY c.2⟩
  else acc

/-- Selection.createMagicWand: build the wand mask, scan it for the tight
box of non-zero entries (minX seeded with width, maxX with 0, and so on),
and only when some non-zero entry was found (maxX >= minX and
maxY >= minY) store the bounds and activate; feather is applied if set. -/
def Selection.createMagicWand (featherMask : ℕ → ℕ → ℕ → List ℕ → List ℕ)
    (s : Selection) (imageData : ImageData) (startX startY : ℤ)
    (tolerance : ℕ) (contiguous : Bool) : Selection :=
  let mask := magicWandSelect imageData startX startY tolerance contiguous
  let s1 : Selection := { s with mask := some mask, type := some "wand" }
  let r := (allCoords s.width s.height).foldl (wandScanStep s.width mask)
    ⟨s.width, s.height, 0, 0⟩
  let s2 : Selection :=
    if r.maxX ≥ r.minX ∧ r.maxY ≥ r.minY then
      { s1 with
        bounds := some ⟨(r.minX : ℤ), (r.minY : ℤ),
          (r.maxX : ℤ) - r.minX + 1, (r.maxY : ℤ) - r.minY + 1⟩,
        active := true }
    else s1
  if s2.feather > 0 then s2.applyFeather featherMask else s2

/-- The bounds field is the tight axis-aligned box of the non-zero mask
entries: every non-zero entry lies inside the box and each of its four
edges touches one, or the bounds are none and the mask has no non-zero
entry in canvas range. -/
def TightBounds (W H : ℕ) (m : List ℕ) (b : Option Rect) : Prop :=
  match b with
  | none => ∀ x y : ℕ, x < W → y < H → m.getD (y * W + x) 0 = 0
  | some r =>
      (∀ x y : ℕ, x < W → y < H → m.getD (y * W + x) 0 ≠ 0 →
        (r.x ≤ (x : ℤ) ∧ (x : ℤ) < r.x + r.w ∧ r.y ≤ (y : ℤ) ∧ (y : ℤ) < r.y + r.h))
      ∧ (∃ x y : ℕ, x < W ∧ y < H ∧ m.getD (y * W + x) 0 ≠ 0 ∧ (x : ℤ) = r.x)
      ∧ (∃ x y : ℕ, x < W ∧ y < H ∧ m.getD (y * W + x) 0 ≠ 0 ∧ (y : ℤ) = r.y)
      ∧ (∃ x y : ℕ, x < W ∧ y < H ∧ m.getD (y * W + x) 0 ≠ 0 ∧ (x : ℤ) = r.x + r.w - 1)
      ∧ (∃ x y : ℕ, x < W ∧ y < H ∧ m.getD (y * W + x) 0 ≠ 0 ∧ (y : ℤ) = r.y + r.h - 1)

lemma mem_rectCoords (x1 y1 x2 y2 px py : ℕ) :
    (px, py) ∈ rectCoords x1 y1 x2 y2 ↔ (x1 ≤ px ∧ px < x2 ∧ y1 ≤ py ∧ py < y2) := by
  unfold rectCoords
  simp only [List.mem_bind, List.mem_map, List.mem_range'_1, Prod.mk.injEq]
  constructor
  · rintro ⟨a, ha, b, hb, rfl, rfl⟩
    omega
  · intro h
    exact ⟨py, by omega, px, by omega, rfl, rfl⟩

lemma mem_allCoords (w h px py : ℕ) :
    (px, py) ∈ allCoords w h ↔ (px < w ∧ py < h) := by
  unfold allCoords
  simp only [List.mem_bind, List.mem_map, List.mem_range, Prod.mk.injEq]
  constructor
  · rintro ⟨a, ha, b, hb, rfl, rfl⟩
    omega
  · intro h
    exact ⟨py, by omega, px, by omega, rfl, rfl⟩

lemma encNat_inj (W px py qx qy : ℕ) (h1 : px < W) (h2 : qx < W)
    (he : py * W + px = qy * W + qx) : px = qx ∧ py = qy := by
  have hW : 0 < W := by omega
  have hmod1 : (py * W + px) % W = px := by
    rw [Nat.mul_comm py W, Nat.mul_add_mod]
    exact Nat.mod_eq_of_lt h1
  have hmod2 : (qy * W + qx) % W = qx := by
    rw [Nat.mul_comm qy W, Nat.mul_add_mod]
    exact Nat.mod_eq_of_lt h2
  have hx : px = qx := by rw [← hmod1, ← hmod2, he]
  have hdiv1 : (py * W + px) / W = py := by
    rw [Nat.mul_comm py W, Nat.mul_add_div hW, Nat.div_eq_of_lt h1]
    omega
  have hdiv2 : (qy * W + qx) / W = qy := by
    rw [Nat.mul_comm qy W, Nat.mul_add_div hW, Nat.div_eq_of_lt h2]
    omega
  exact ⟨hx, by rw [← hdiv1, ← hdiv2, he]⟩

lemma foldl_cond_min {α : Type} (g : α → ℕ) (nz : α → Prop) [DecidablePred nz] :
    ∀ (l : List α) (a0 : ℕ),
      (l.foldl (fun a c => if nz c then min a (g c) else a) a0 ≤ a0)
      ∧ (∀ c ∈ l, nz c →
          l.foldl (fun a c => if nz c then min a (g c) else a) a0 ≤ g c)
      ∧ (l.foldl (fun a c => if nz c then min a (g c) else a) a0 = a0
          ∨ ∃ c ∈ l, nz c
              ∧ g c = l.foldl (fun a c => if nz c then min a (g c) else a) a0) := by
  intro l
  induction l with
  | nil =>
    intro a0
    exact ⟨le_rfl, fun c hc => absurd hc (List.not_mem_nil c), Or.inl rfl⟩
  | cons c t ihl =>
    intro a0
    simp only [List.foldl_cons]
    by_cases hc : nz c
    · rw [if_pos hc]
      obtain ⟨ih1, ih2, ih3⟩ := ihl (min a0 (g c))
      refine ⟨le_trans ih1 (min_le_left _ _), ?_, ?_⟩
      · intro d hd hnzd
        rcases List.mem_cons.mp hd with rfl | hd'
        · exact le_trans ih1 (min_le_right _ _)
        · exact ih2 d hd' hnzd
      · rcases ih3 with h | ⟨d, hd, hnzd, hgd⟩
        · rcases min_choice a0 (g c) with hmin | hmin
          · exact Or.inl (by rw [h, hmin])
          · exact Or.inr ⟨c, List.mem_cons_self c t, hc, by rw [h, hmin]⟩
        · exact Or.inr ⟨d, List.mem_cons_of_mem c hd, hnzd, hgd⟩
    · rw [if_neg hc]
      obtain ⟨ih1, ih2, ih3⟩ := ihl a0
      refine ⟨ih1, ?_, ?_⟩
      · intro d hd hnzd
        rcases List.mem_cons.mp hd with rfl | hd'
        · exact absurd hnzd hc
        · exact ih2 d hd' hnzd
      · rcases ih3 with h | ⟨d, hd, hnzd, hgd⟩
        · exact Or.inl h
        · exact Or.inr ⟨d, List.mem_cons_of_mem c hd, hnzd, hgd⟩

lemma foldl_cond_max {α : Type} (g : α → ℕ) (nz : α → Prop) [DecidablePred nz] :
    ∀ (l : List α) (a0 : ℕ),
      (a0 ≤ l.foldl (fun a c => if nz c then max a (g c) else a) a0)
      ∧ (∀ c ∈ l, nz c →
          g c ≤ l.foldl (fun a c => if nz c then max a (g c) else a) a0)
      ∧ (l.foldl (fun a c => if nz c then max a (g c) else a) a0 = a0
          ∨ ∃ c ∈ l, nz c
              ∧ g c = l.foldl (fun a c => if nz c then max a (g c) else a) a0) := by
  intro l
  induction l with
  | nil =>
    intro a0
    exact ⟨le_rfl, fun c hc => absurd hc (List.not_mem_nil c), Or.inl rfl⟩
  | cons c t ihl =>
    intro a0
    simp only [List.foldl_cons]
    by_cases hc : nz c
    · rw [if_pos hc]
      obtain ⟨ih1, ih2, ih3⟩ := ihl (max a0 (g c))
      refine ⟨le_trans (le_max_left _ _) ih1, ?_, ?_⟩
      · intro d hd hnzd
        rcases List.mem_cons.mp hd with rfl | hd'
        · exact le_trans (le_max_right _ _) ih1
        · exact ih2 d hd' hnzd
      · rcases ih3 with h | ⟨d, hd, hnzd, hgd⟩
        · rcases max_choice a0 (g c) with hmax | hmax
          · exact Or.inl (by rw [h, hmax])
          · exact Or.inr ⟨c, List.mem_cons_self c t, hc, by rw [h, hmax]⟩
        · exact Or.inr ⟨d, List.mem_cons_of_mem c hd, hnzd, hgd⟩
    · rw [if_neg hc]
      obtain ⟨ih1, ih2, ih3⟩ := ihl a0
      refine ⟨ih1, ?_, ?_⟩
      · intro d hd hnzd
        rcases List.mem_cons.mp hd with rfl | hd'
        · exact absurd hnzd hc
        · exact ih2 d hd' hnzd
      · rcases ih3 with h | ⟨d, hd, hnzd, hgd⟩
        · exact Or.inl h
        · exact Or.inr ⟨d, List.mem_cons_of_mem c hd, hnzd, hgd⟩

lemma wandScan_minX (w : ℕ) (m : List ℕ) :
    ∀ (l : List (ℕ × ℕ)) (acc : BoundsScan),
      (l.foldl (wandScanStep w m) acc).minX =
        l.foldl (fun a c => if m.getD (c.2 * w + c.1) 0 > 0 then min a c.1 else a)
          acc.minX := by
  intro l
  induction l with
  | nil => intro acc; rfl
  | cons c t ihl =>
    intro acc
    simp only [List.foldl_cons, wandScanStep]
    by_cases hc : m.getD (c.2 * w + c.1) 0 > 0
    · rw [if_pos hc, if_pos hc, ihl]
    · rw [if_neg hc, if_neg hc, ihl]

lemma wandScan_minY (w : ℕ) (m : List ℕ) :
    ∀ (l : List (ℕ × ℕ)) (acc : BoundsScan),
      (l.foldl (wandScanStep w m) acc).minY =
        l.foldl (fun a c => if m.getD (c.2 * w + c.1) 0 > 0 then min a c.2 else a)
          acc.minY := by
  intro l
  induction l with
  | nil => intro acc; rfl
  | cons c t ihl =>
    intro acc
    simp only [List.foldl_cons, wandScanStep]
    by_cases hc : m.getD (c.2 * w + c.1) 0 > 0
    · rw [if_pos hc, if_pos hc, ihl]
    · rw [if_neg hc, if_neg hc, ihl]

lemma wandScan_maxX (w : ℕ) (m : List ℕ) :
    ∀ (l : List (ℕ × ℕ)) (acc : BoundsScan),
      (l.foldl (wandScanStep w m) acc).maxX =
        l.foldl (fun a c => if m.getD (c.2 * w + c.1) 0 > 0 then max a c.1 else a)
          acc.maxX := by
  intro l
  induction l with
  | nil => intro acc; rfl
  | cons c t ihl =>
    intro acc
    simp only [List.foldl_cons, wandScanStep]
    by_cases hc : m.getD (c.2 * w + c.1) 0 > 0
    · rw [if_pos hc, if_pos hc, ihl]
    · rw [if_neg hc, if_neg hc, ihl]

lemma wandScan_maxY (w : ℕ) (m : List ℕ) :
    ∀ (l : List (ℕ × ℕ)) (acc : BoundsScan),
      (l.foldl (wandScanStep w m) acc).maxY =
        l.foldl (fun a c => if m.getD (c.2 * w + c.1) 0 > 0 then max a c.2 else a)
          acc.maxY := by
  intro l
  induction l with
  | nil => intro acc; rfl
  | cons c t ihl =>
    intro acc
    simp only [List.foldl_cons, wandScanStep]
    by_cases hc : m.getD (c.2 * w + c.1) 0 > 0
    · rw [if_pos hc, if_pos hc, ihl]
    · rw [if_neg hc, if_neg hc, ihl]

lemma encode_lt (W H x y : ℕ) (hx : x < W) (hy : y < H) : y * W + x < W * H := by
  have h1 : (y + 1) * W = y * W + W := by ring
  have h3 : (y + 1) * W ≤ H * W := Nat.mul_le_mul_right W (by omega)
  have h4 : H * W = W * H := Nat.mul_comm H W
  omega

lemma getD_replicate_zero (n j : ℕ) : (List.replicate n (0 : ℕ)).getD j 0 = 0 := by
  rw [List.getD_eq_getElem?_getD, List.getElem?_replicate]
  split <;> rfl

lemma wandMatch_self (img : ImageData) (sxn syn : ℕ) (tol : ℕ) :
    wandMatch img.data (wandSeedR img (sxn : ℤ) (syn : ℤ))
      (wandSeedG img (sxn : ℤ) (syn : ℤ)) (wandSeedB img (sxn : ℤ) (syn : ℤ)) tol
      ((syn * img.width + sxn) * 4) = true := by
  have hidx : (((syn : ℤ)) * img.width + ((sxn : ℤ))).toNat = syn * img.width + sxn := by
    rw [show ((syn : ℤ)) * (img.width : ℕ) + ((sxn : ℤ))
        = ((syn * img.width + sxn : ℕ) : ℤ) by push_cast; ring, Int.toNat_natCast]
  unfold wandMatch wandSeedR wandSeedG wandSeedB
  rw [hidx]
  simp [chanDiff]

lemma magicWand_seed_marked (img : ImageData) (sxn syn : ℕ) (tol : ℕ) (contig : Bool)
    (hlen : img.data.length = 4 * (img.width * img.height))
    (hx : sxn < img.width) (hy : syn < img.height) :
    (magicWandSelect img (sxn : ℤ) (syn : ℤ) tol contig).getD
      (syn * img.width + sxn) 0 = 255 := by
  have hseed : inB img.width img.height ((sxn : ℤ), (syn : ℤ)) := by
    unfold inB
    simp only
    omega
  have hspec := magicWand_getD_spec img (sxn : ℤ) (syn : ℤ) tol sxn syn hlen hx hy hseed
  cases contig
  · rw [hspec.2.1, if_pos (wandMatch_self img sxn syn tol)]
  · apply hspec.1.1.mpr
    apply Reach.base hseed
    unfold wandGood
    rw [pixIdx_natCast]
    exact wandMatch_self img sxn syn tol

lemma magicWand_getD_cases (img : ImageData) (sxn syn : ℕ) (tol : ℕ) (contig : Bool)
    (x y : ℕ) (hlen : img.data.length = 4 * (img.width * img.height))
    (hx : x < img.width) (hy : y < img.height)
    (hsx : sxn < img.width) (hsy : syn < img.height) :
    (magicWandSelect img (sxn : ℤ) (syn : ℤ) tol contig).getD (y * img.width + x) 0 = 255
    ∨ (magicWandSelect img (sxn : ℤ) (syn : ℤ) tol contig).getD (y * img.width + x) 0 = 0 := by
  have hseed : inB img.width img.height ((sxn : ℤ), (syn : ℤ)) := by
    unfold inB
    simp only
    omega
  have hspec := magicWand_getD_spec img (sxn : ℤ) (syn : ℤ) tol x y hlen hx hy hseed
  cases contig
  · rw [hspec.2.1]
    split
    · exact Or.inl rfl
    · exact Or.inr rfl
  · exact hspec.1.2

/-- Counterexample for C2: a zero-area createRect leaves an all-zero mask
with active = true and bounds set to a zero-size rectangle — not to none as
the tight-bounding-box invariant demands when no entry is non-zero. -/
theorem C2_degenerate_rect_breaks_tight_bounds_counterexample :
    ((Selection.init 4 4).createRect (fun _ _ _ m => m) 1 1 0 0).mask
        = some (List.replicate 16 0)
    ∧ ((Selection.init 4 4).createRect (fun _ _ _ m => m) 1 1 0 0).active = true
    ∧ ((Selection.init 4 4).createRect (fun _ _ _ m => m) 1 1 0 0).bounds
        = some ⟨1, 1, 0, 0⟩
    ∧ ¬ TightBounds 4 4 (List.replicate 16 0)
        ((Selection.init 4 4).createRect (fun _ _ _ m => m) 1 1 0 0).bounds := by
  refine ⟨by decide, by decide, by decide, ?_⟩
  intro hT
  rw [show ((Selection.init 4 4).createRect (fun _ _ _ m => m) 1 1 0 0).bounds
      = some ⟨1, 1, 0, 0⟩ by decide] at hT
  unfold TightBounds at hT
  obtain ⟨-, ⟨a, b, ha, hb, hnz, -⟩, -⟩ := hT
  exact hnz (getD_replicate_zero 16 (b * 4 + a))

lemma createRect_tight (fm : ℕ → ℕ → ℕ → List ℕ → List ℕ) (s : Selection)
    (x y w h : ℤ) (hf : s.feather = 0)
    (hndegx : max 0 (min x (x + w)) < min (s.width : ℤ) (max x (x + w)))
    (hndegy : max 0 (min y (y + h)) < min (s.height : ℤ) (max y (y + h))) :
    (s.createRect fm x y w h).active = (s.createRect fm x y w h).mask.isSome
    ∧ ∃ m, (s.createRect fm x y w h).mask = some m
        ∧ TightBounds s.width s.height m (s.createRect fm x y w h).bounds := by
  have hres : s.createRect fm x y w h = { s with
      mask := some ((rectCoords (max 0 (min x (x + w))).toNat (max 0 (min y (y + h))).toNat
          (min (s.width : ℤ) (max x (x + w))).toNat
          (min (s.height : ℤ) (max y (y + h))).toNat).foldl
        (fun mk c => mk.set (c.2 * s.width + c.1) 255)
        (List.replicate (s.width * s.height) 0)),
      type := some "rect",
      bounds := some ⟨max 0 (min x (x + w)), max 0 (min y (y + h)),
        min (s.width : ℤ) (max x (x + w)) - max 0 (min x (x + w)),
        min (s.height : ℤ) (max y (y + h)) - max 0 (min y (y + h))⟩,
      active := true } := by
    unfold Selection.createRect
    dsimp only
    rw [hf]
    rfl
  rw [hres]
  set X1 := max 0 (min x (x + w)) with hX1
  set Y1 := max 0 (min y (y + h)) with hY1
  set X2 := min (s.width : ℤ) (max x (x + w)) with hX2
  set Y2 := min (s.height : ℤ) (max y (y + h)) with hY2
  have h01 : 0 ≤ X1 := le_max_left _ _
  have h0y1 : 0 ≤ Y1 := le_max_left _ _
  have hX2W : X2 ≤ (s.width : ℤ) := min_le_left _ _
  have hY2H : Y2 ≤ (s.height : ℤ) := min_le_left _ _
  set x1n := X1.toNat with hx1n
  set y1n := Y1.toNat with hy1n
  set x2n := X2.toNat with hx2n
  set y2n := Y2.toNat with hy2n
  have hx12 : x1n < x2n := by omega
  have hy12 : y1n < y2n := by omega
  have hx2W : x2n ≤ s.width := by omega
  have hy2H : y2n ≤ s.height := by omega
  have hmask : ∀ a b : ℕ, a < s.width → b < s.height →
      ((rectCoords x1n y1n x2n y2n).foldl
        (fun mk c => mk.set (c.2 * s.width + c.1) 255)
        (List.replicate (s.width * s.height) 0)).getD (b * s.width + a) 0 =
        if x1n ≤ a ∧ a < x2n ∧ y1n ≤ b ∧ b < y2n then 255 else 0 := by
    intro a b ha hb
    have hchar := (foldl_set_spec (fun c : ℕ × ℕ => c.2 * s.width + c.1) 255
        (rectCoords x1n y1n x2n y2n) (List.replicate (s.width * s.height) 0)).2
        (b * s.width + a)
        (by simpa using encode_lt s.width s.height a b ha hb)
    rw [hchar, getD_replicate_zero]
    have hiff : (∃ c ∈ rectCoords x1n y1n x2n y2n, c.2 * s.width + c.1 = b * s.width + a)
        ↔ (x1n ≤ a ∧ a < x2n ∧ y1n ≤ b ∧ b < y2n) := by
      constructor
      · rintro ⟨⟨px, py⟩, hmem, henc⟩
        rw [mem_rectCoords] at hmem
        obtain ⟨hpe, hqe⟩ := encNat_inj s.width px py a b (by omega) ha henc
        omega
      · intro h5
        exact ⟨(a, b), (mem_rectCoords x1n y1n x2n y2n a b).mpr (by omega), rfl⟩
    rw [if_congr hiff rfl rfl]
  refine ⟨rfl, _, rfl, ?_⟩
  unfold TightBounds
  dsimp only
  refine ⟨?_, ?_, ?_, ?_, ?_⟩
  · intro a b ha hb hnz
    rw [hmask a b ha hb] at hnz
    by_cases hcnd : x1n ≤ a ∧ a < x2n ∧ y1n ≤ b ∧ b < y2n
    · refine ⟨by omega, by omega, by omega, by omega⟩
    · rw [if_neg hcnd] at hnz
      exact absurd rfl hnz
  · refine ⟨x1n, y1n, by omega, by omega, ?_, by omega⟩
    rw [hmask x1n y1n (by omega) (by omega), if_pos (by omega)]
    omega
  · refine ⟨x1n, y1n, by omega, by omega, ?_, by omega⟩
    rw [hmask x1n y1n (by omega) (by omega), if_pos (by omega)]
    omega
  · refine ⟨x2n - 1, y1n, by omega, by omega, ?_, by omega⟩
    rw [hmask (x2n - 1) y1n (by omega) (by omega), if_pos (by omega)]
    omega
  · refine ⟨x1n, y2n - 1, by omega, by omega, ?_, by omega⟩
    rw [hmask x1n (y2n - 1) (by omega) (by omega), if_pos (by omega)]
    omega

lemma createMagicWand_tight (fm : ℕ → ℕ → ℕ → List ℕ → List ℕ) (s : Selection)
    (img : ImageData) (sxn syn : ℕ) (tol : ℕ) (contig : Bool)
    (hf : s.feather = 0)
    (hW : img.width = s.width) (hH : img.height = s.height)
    (hlen : img.data.length = 4 * (img.width * img.height))
    (hsx : sxn < img.width) (hsy : syn < img.height) :
    (s.createMagicWand fm img (sxn : ℤ) (syn : ℤ) tol contig).active
      = (s.createMagicWand fm img (sxn : ℤ) (syn : ℤ) tol contig).mask.isSome
    ∧ ∃ m, (s.createMagicWand fm img (sxn : ℤ) (syn : ℤ) tol contig).mask = some m
        ∧ TightBounds s.width s.height m
            (s.createMagicWand fm img (sxn : ℤ) (syn : ℤ) tol contig).bounds := by
  have hsx' : sxn < s.width := by omega
  have hsy' : syn < s.height := by omega
  have hseedval : (magicWandSelect img (sxn : ℤ) (syn : ℤ) tol contig).getD
      (syn * s.width + sxn) 0 = 255 := by
    have := magicWand_seed_marked img sxn syn tol contig hlen hsx hsy
    rwa [hW] at this
  have hval : ∀ a b : ℕ, a < s.width → b < s.height →
      (magicWandSelect img (sxn : ℤ) (syn : ℤ) tol contig).getD (b * s.width + a) 0 = 255
      ∨ (magicWandSelect img (sxn : ℤ) (syn : ℤ) tol contig).getD (b * s.width + a) 0 = 0 := by
    intro a b ha hb
    have := magicWand_getD_cases img sxn syn tol contig a b hlen
      (by omega) (by omega) hsx hsy
    rwa [hW] at this
  set wm := magicWandSelect img (sxn : ℤ) (syn : ℤ) tol contig with hwm
  set F := (allCoords s.width s.height).foldl (wandScanStep s.width wm)
    ⟨s.width, s.height, 0, 0⟩ with hF
  have hFx : F.minX = (allCoords s.width s.height).foldl
      (fun a c => if wm.getD (c.2 * s.width + c.1) 0 > 0 then min a c.1 else a)
      s.width := by
    rw [hF, wandScan_minX]
  have hFy : F.minY = (allCoords s.width s.height).foldl
      (fun a c => if wm.getD (c.2 * s.width + c.1) 0 > 0 then min a c.2 else a)
      s.height := by
    rw [hF, wandScan_minY]
  have hFmx : F.maxX = (allCoords s.width s.height).foldl
      (fun a c => if wm.getD (c.2 * s.width + c.1) 0 > 0 then max a c.1 else a)
      0 := by
    rw [hF, wandScan_maxX]
  have hFmy : F.maxY = (allCoords s.width s.height).foldl
      (fun a c => if wm.getD (c.2 * s.width + c.1) 0 > 0 then max a c.2 else a)
      0 := by
    rw [hF, wandScan_maxY]
  have hKmin := foldl_cond_min (fun c : ℕ × ℕ => c.1)
    (fun c : ℕ × ℕ => wm.getD (c.2 * s.width + c.1) 0 > 0)
    (allCoords s.width s.height) s.width
  have hKminY := foldl_cond_min (fun c : ℕ × ℕ => c.2)
    (fun c : ℕ × ℕ => wm.getD (c.2 * s.width + c.1) 0 > 0)
    (allCoords s.width s.height) s.height
  have hKmax := foldl_cond_max (fun c : ℕ × ℕ => c.1)
    (fun c : ℕ × ℕ => wm.getD (c.2 * s.width + c.1) 0 > 0)
    (allCoords s.width s.height) 0
  have hKmaxY := foldl_cond_max (fun c : ℕ × ℕ => c.2)
    (fun c : ℕ × ℕ => wm.getD (c.2 * s.width + c.1) 0 > 0)
    (allCoords s.width s.height) 0
  have hseedmem : ((sxn, syn) : ℕ × ℕ) ∈ allCoords s.width s.height :=
    (mem_allCoords s.width s.height sxn syn).mpr ⟨hsx', hsy'⟩
  have hseednz : wm.getD (syn * s.width + sxn) 0 > 0 := by
    rw [hseedval]
    omega
  have hminX_seed : F.minX ≤ sxn := by
    rw [hFx]
    exact hKmin.2.1 (sxn, syn) hseedmem hseednz
  have hmaxX_seed : sxn ≤ F.maxX := by
    rw [hFmx]
    exact hKmax.2.1 (sxn, syn) hseedmem hseednz
  have hminY_seed : F.minY ≤ syn := by
    rw [hFy]
    exact hKminY.2.1 (sxn, syn) hseedmem hseednz
  have hmaxY_seed : syn ≤ F.maxY := by
    rw [hFmy]
    exact hKmaxY.2.1 (sxn, syn) hseedmem hseednz
  have hguard : F.maxX ≥ F.minX ∧ F.maxY ≥ F.minY :=
    ⟨le_trans hminX_seed hmaxX_seed, le_trans hminY_seed hmaxY_seed⟩
  have hres : s.createMagicWand fm img (sxn : ℤ) (syn : ℤ) tol contig = { s with
      mask := some wm, type := some "wand",
      bounds := some ⟨(F.minX : ℤ), (F.minY : ℤ),
        (F.maxX : ℤ) - F.minX + 1, (F.maxY : ℤ) - F.minY + 1⟩,
      active := true } := by
    unfold Selection.createMagicWand
    dsimp only
    rw [← hwm, ← hF, if_pos hguard, hf]
    rfl
  rw [hres]
  refine ⟨rfl, wm, rfl, ?_⟩
  unfold TightBounds
  dsimp only
  have hcontain : ∀ a b : ℕ, a < s.width → b < s.height →
      wm.getD (b * s.width + a) 0 ≠ 0 →
      (F.minX ≤ a ∧ a ≤ F.maxX ∧ F.minY ≤ b ∧ b ≤ F.maxY) := by
    intro a b ha hb hnz
    have hmem : ((a, b) : ℕ × ℕ) ∈ allCoords s.width s.height :=
      (mem_allCoords s.width s.height a b).mpr ⟨ha, hb⟩
    have hnz' : wm.getD (b * s.width + a) 0 > 0 := by omega
    refine ⟨?_, ?_, ?_, ?_⟩
    · rw [hFx]
      exact hKmin.2.1 (a, b) hmem hnz'
    · rw [hFmx]
      exact hKmax.2.1 (a, b) hmem hnz'
    · rw [hFy]
      exact hKminY.2.1 (a, b) hmem hnz'
    · rw [hFmy]
      exact hKmaxY.2.1 (a, b) hmem hnz'
  refine ⟨?_, ?_, ?_, ?_, ?_⟩
  · intro a b ha hb hnz
    have := hcontain a b ha hb hnz
    refine ⟨by omega, by omega, by omega, by omega⟩
  · rcases hKmin.2.2 with hEq | ⟨⟨ca, cb⟩, hmem, hnzc, hgc⟩
    · exfalso
      rw [← hFx] at hEq
      omega
    · rw [mem_allCoords] at hmem
      have hca : ca = F.minX := by rw [hFx]; exact hgc
      have hnzc' : wm.getD (cb * s.width + ca) 0 > 0 := hnzc
      refine ⟨ca, cb, hmem.1, hmem.2, by omega, by omega⟩
  · rcases hKminY.2.2 with hEq | ⟨⟨ca, cb⟩, hmem, hnzc, hgc⟩
    · exfalso
      rw [← hFy] at hEq
      omega
    · rw [mem_allCoords] at hmem
      have hcb : cb = F.minY := by rw [hFy]; exact hgc
      have hnzc' : wm.getD (cb * s.width + ca) 0 > 0 := hnzc
      refine ⟨ca, cb, hmem.1, hmem.2, by omega, by omega⟩
  · rcases hKmax.2.2 with hEq | ⟨⟨ca, cb⟩, hmem, hnzc, hgc⟩
    · rw [← hFmx] at hEq
      refine ⟨sxn, syn, hsx', hsy', by omega, by omega⟩
    · rw [mem_allCoords] at hmem
      have hca : ca = F.maxX := by rw [hFmx]; exact hgc
      have hnzc' : wm.getD (cb * s.width + ca) 0 > 0 := hnzc
      refine ⟨ca, cb, hmem.1, hmem.2, by omega, by omega⟩
  · rcases hKmaxY.2.2 with hEq | ⟨⟨ca, cb⟩, hmem, hnzc, hgc⟩
    · rw [← hFmy] at hEq
      refine ⟨sxn, syn, hsx', hsy', by omega, by omega⟩
    · rw [mem_allCoords] at hmem
      have hcb : cb = F.maxY := by rw [hFmy]; exact hgc
      have hnzc' : wm.getD (cb * s.width + ca) 0 > 0 := hnzc
      refine ⟨ca, cb, hmem.1, hmem.2, by omega, by omega⟩

def imgC2 : ImageData := ⟨4, 4, List.replicate 64 0⟩

/-- C2: [amended] The invariant `active = mask.isSome` together with tight
bounds does not survive every Selection operation unconditionally (a
degenerate rectangle leaves an all-zero active mask whose bounds is a
zero-size box, not `none`); it does hold, with feathering off, after a
createRect whose clamped rectangle has positive extent inside the canvas
in both axes, and after a createMagicWand whose seed lies inside a
correctly-sized image matching the selection dimensions. -/
theorem C2_selection_invariant_amended
    (fm : ℕ → ℕ → ℕ → List ℕ → List ℕ) (s : Selection)
    (x y w h : ℤ) (img : ImageData) (sxn syn tol : ℕ) (contig : Bool)
    (hf : s.feather = 0)
    (hndegx : max 0 (min x (x + w)) < min (s.width : ℤ) (max x (x + w)))
    (hndegy : max 0 (min y (y + h)) < min (s.height : ℤ) (max y (y + h)))
    (hW : img.width = s.width) (hH : img.height = s.height)
    (hlen : img.data.length = 4 * (img.width * img.height))
    (hsx : sxn < img.width) (hsy : syn < img.height) :
    ((s.createRect fm x y w h).active = (s.createRect fm x y w h).mask.isSome
      ∧ ∃ m, (s.createRect fm x y w h).mask = some m
          ∧ TightBounds s.width s.height m (s.createRect fm x y w h).bounds)
    ∧ ((s.createMagicWand fm img (sxn : ℤ) (syn : ℤ) tol contig).active
        = (s.createMagicWand fm img (sxn : ℤ) (syn : ℤ) tol contig).mask.isSome
      ∧ ∃ m, (s.createMagicWand fm img (sxn : ℤ) (syn : ℤ) tol contig).mask = some m
          ∧ TightBounds s.width s.height m
              (s.createMagicWand fm img (sxn : ℤ) (syn : ℤ) tol contig).bounds) :=
  ⟨createRect_tight fm s x y w h hf hndegx hndegy,
   createMagicWand_tight fm s img sxn syn tol contig hf hW hH hlen hsx hsy⟩

theorem C2_selection_invariant_amended_witness :
    ((Selection.init 4 4).feather = 0
      ∧ max 0 (min 1 (1 + 2)) < min ((Selection.init 4 4).width : ℤ) (max 1 (1 + 2))
      ∧ imgC2.data.length = 4 * (imgC2.width * imgC2.height)
      ∧ 1 < imgC2.width)
    ∧ ((((Selection.init 4 4).createRect (fun _ _ _ m => m) 1 1 2 2).active
        = (((Selection.init 4 4).createRect (fun _ _ _ m => m) 1 1 2 2)).mask.isSome
      ∧ ∃ m, ((Selection.init 4 4).createRect (fun _ _ _ m => m) 1 1 2 2).mask = some m
          ∧ TightBounds 4 4 m ((Selection.init 4 4).createRect (fun _ _ _ m => m) 1 1 2 2).bounds)
    ∧ (((Selection.init 4 4).createMagicWand (fun _ _ _ m => m) imgC2 (1 : ℤ) (1 : ℤ) 0 true).active
        = ((Selection.init 4 4).createMagicWand (fun _ _ _ m => m) imgC2 (1 : ℤ) (1 : ℤ) 0 true).mask.isSome
      ∧ ∃ m, ((Selection.init 4 4).createMagicWand (fun _ _ _ m => m) imgC2 (1 : ℤ) (1 : ℤ) 0 true).mask = some m
          ∧ TightBounds 4 4 m
              ((Selection.init 4 4).createMagicWand (fun _ _ _ m => m) imgC2 (1 : ℤ) (1 : ℤ) 0 true).bounds)) :=
  ⟨⟨by decide, by decide, by decide, by decide⟩,
   C2_selection_invariant_amended (fun _ _ _ m => m) (Selection.init 4 4)
     1 1 2 2 imgC2 1 1 0 true (by decide) (by decide) (by decide)
     (by decide) (by decide) (by decide) (by decide) (by decide)⟩
